import Mathlib

/-!
# GraphAlgorithmDemo: the graph container of `graph.h`

A shallow embedding of `namespace Graph` from `graph.include/include/graph.h`.

* `std::map<int, V>` is a key-ordered association list (`StdMap V`). The
  operations are written for arbitrary lists; `StdMap.Ordered` states the
  red-black tree's representation invariant (strictly ascending keys).
* `std::set<T>` is a `Finset T`.
* `int` identifiers are `Int` (no arithmetic is done on identifiers, only
  comparisons); the `int` counters of `sizeNode` / `sizeEdge` are `Nat`
  (signed overflow would need more than `2^31 - 1` stored edges).
* `float` weights are only stored and copied, never computed with; a weight is
  carried as its IEEE-754 binary32 bit pattern.
* Member functions that can mutate the object return the new object beside
  their result; `operator[]` of `std::map` inserts a default value for an
  absent key, so the neighbour queries are of this kind.
-/

namespace Graph

/-! ## `std::map<int, V>` -/

/-- A `std::map<int, V>`: entries in ascending key order. -/
abbrev StdMap (V : Type) := List (Int × V)

namespace StdMap

variable {V : Type}

/-- Representation invariant of `std::map`: keys strictly ascending. -/
def Ordered (m : StdMap V) : Prop := (m.map Prod.fst).Pairwise (· < ·)

instance (m : StdMap V) : Decidable (Ordered m) :=
  inferInstanceAs (Decidable ((m.map Prod.fst).Pairwise (· < ·)))

/-- The keys, in iteration order. -/
def keys (m : StdMap V) : List Int := m.map Prod.fst

/-- The lookup `m.find(k)`: `none` stands for `m.end()`. -/
def find : StdMap V → Int → Option V
  | [], _ => none
  | (k', v) :: t, k => if k' = k then some v else find t k

/-- The insertion `m.emplace(k, v)`: inserts only when `k` is absent. -/
def emplace : StdMap V → Int → V → StdMap V
  | [], k, v => [(k, v)]
  | (k', v') :: t, k, v =>
    if k < k' then (k, v) :: (k', v') :: t
    else if k = k' then (k', v') :: t
    else (k', v') :: emplace t k v

/-- The assignment `m[k] = v`: inserts or overwrites. -/
def assign : StdMap V → Int → V → StdMap V
  | [], k, v => [(k, v)]
  | (k', v') :: t, k, v =>
    if k < k' then (k, v) :: (k', v') :: t
    else if k = k' then (k, v) :: t
    else (k', v') :: assign t k v

/-- The removal `m.erase(k)`. -/
def erase : StdMap V → Int → StdMap V
  | [], _ => []
  | (k', v') :: t, k => if k' = k then t else (k', v') :: erase t k

/-- In-place update of the value stored under `k` (through a reference to it). -/
def modify : StdMap V → Int → (V → V) → StdMap V
  | [], _, _ => []
  | (k', v') :: t, k, f => if k' = k then (k', f v') :: t else (k', v') :: modify t k f

end StdMap

/-! ## Entities -/

/-- A `float`, as its binary32 bit pattern. -/
abbrev Weight := Nat

/-- The `float` 1.0. -/
def f32_one : Weight := 0x3F800000

/-- The `float` 2.0. -/
def f32_two : Weight := 0x40000000

/-- `struct Graph_Node`. -/
structure Graph_Node where
  id : Int
  widget : Weight
  deriving DecidableEq, Repr

/-- `struct Graph_Edge` (`from_` is the C++ member `from`). -/
structure Graph_Edge where
  from_ : Int
  to_ : Int
  weight : Weight
  deriving DecidableEq, Repr

/-- An adjacency table `std::map<int, std::map<int, Graph_Edge>>`. -/
abbrev EdgeTable := StdMap (StdMap Graph_Edge)

/-- The data members of `class Graph_Base`. -/
structure Graph_Base where
  m_nodes : StdMap Graph_Node
  m_edges : EdgeTable
  deriving DecidableEq, Repr

/-- `class UnDirected_Graph`: `Graph_Base` plus the reverse table. -/
structure UnDirected_Graph extends Graph_Base where
  m_edges_inv : EdgeTable
  deriving DecidableEq, Repr

/-- `class Directed_Graph`: `Graph_Base` with no further member. -/
abbrev Directed_Graph := Graph_Base

/-! ## `Graph_Base` queries -/

namespace Graph_Base

/-- `Graph_Base::sizeNode`. -/
def sizeNode (g : Graph_Base) : Nat := g.m_nodes.length

/-- `Graph_Base::sizeEdge`: sums the sizes of the forward rows. -/
def sizeEdge (g : Graph_Base) : Nat :=
  g.m_edges.foldl (fun i near_edges => i + near_edges.2.length) 0

/-- `Graph_Base::getAllNodes`. -/
def getAllNodes (g : Graph_Base) : Finset Int :=
  g.m_nodes.foldl (fun nodes node => insert node.1 nodes) ∅

/-- The row `m_edges[id]` as read after `operator[]` has run. -/
def rowAt (t : EdgeTable) (id : Int) : StdMap Graph_Edge :=
  (StdMap.find (StdMap.emplace t id []) id).getD []

/-- The table after `t[a][b] = e`. -/
def store (t : EdgeTable) (a b : Int) (e : Graph_Edge) : EdgeTable :=
  StdMap.modify (StdMap.emplace t a []) a (fun row => StdMap.assign row b e)

/-- The table after `t[a].erase(b)`. -/
def drop (t : EdgeTable) (a b : Int) : EdgeTable :=
  StdMap.modify (StdMap.emplace t a []) a (fun row => StdMap.erase row b)

/-- `Graph_Base::getNearNode`: `m_edges[id]` creates the row when absent. -/
def getNearNode (g : Graph_Base) (id : Int) : Finset Int × Graph_Base :=
  ((rowAt g.m_edges id).foldl (fun nodes edges => insert edges.2.to_ nodes) ∅,
   { g with m_edges := StdMap.emplace g.m_edges id [] })

/-- `Graph_Base::getAllEdges`: the pairs `(row key, edge.to)`. -/
def getAllEdges (g : Graph_Base) : Finset (Int × Int) :=
  g.m_edges.foldl
    (fun edges node => node.2.foldl (fun edges edge => insert (node.1, edge.2.to_) edges) edges) ∅

/-- `Graph_Base::getNearEdges`: `m_edges[id]` creates the row when absent. -/
def getNearEdges (g : Graph_Base) (id : Int) : Finset (Int × Int) × Graph_Base :=
  ((rowAt g.m_edges id).foldl (fun edges edge => insert (id, edge.2.to_) edges) ∅,
   { g with m_edges := StdMap.emplace g.m_edges id [] })

end Graph_Base

/-! ## `Directed_Graph` -/

namespace Directed_Graph

/-- `Directed_Graph::add_node`. -/
def add_node (g : Directed_Graph) (id : Int) : Bool × Directed_Graph :=
  if (StdMap.find g.m_nodes id).isSome then (false, g)
  else (true, { m_nodes := StdMap.assign g.m_nodes id ⟨id, f32_one⟩,
                m_edges := StdMap.emplace g.m_edges id [] })

/-- `Directed_Graph::remove_node`: erases the node, its row, and the entry
under `id` of every remaining row. -/
def remove_node (g : Directed_Graph) (id : Int) : Bool × Directed_Graph :=
  if (StdMap.find g.m_nodes id).isNone then (false, g)
  else (true, { m_nodes := StdMap.erase g.m_nodes id,
                m_edges := (StdMap.erase g.m_edges id).map (fun edge =>
                  (edge.1, if (StdMap.find edge.2 id).isSome then StdMap.erase edge.2 id
                           else edge.2)) })

/-- `Directed_Graph::add_edge`. -/
def add_edge (g : Directed_Graph) (from_ to_ : Int) (weight : Weight) : Bool × Directed_Graph :=
  if from_ = to_ then (false, g)
  else if (StdMap.find g.m_nodes from_).isNone || (StdMap.find g.m_nodes to_).isNone then (false, g)
  else (true, { g with m_edges := Graph_Base.store g.m_edges from_ to_ ⟨from_, to_, weight⟩ })

/-- `Directed_Graph::remove_edge`: the test `m_edges[from]` creates the row
when absent, also on the failing path. -/
def remove_edge (g : Directed_Graph) (from_ to_ : Int) : Bool × Directed_Graph :=
  if (StdMap.find g.m_nodes from_).isNone || (StdMap.find g.m_nodes to_).isNone then (false, g)
  else if (StdMap.find (Graph_Base.rowAt g.m_edges from_) to_).isNone then
    (false, { g with m_edges := StdMap.emplace g.m_edges from_ [] })
  else (true, { g with m_edges := Graph_Base.drop g.m_edges from_ to_ })

end Directed_Graph

/-! ## `UnDirected_Graph` -/

namespace UnDirected_Graph

/-- The `std::swap(from, to)` under `if (from > to)`. -/
def canon (from_ to_ : Int) : Int × Int := if from_ > to_ then (to_, from_) else (from_, to_)

/-- `UnDirected_Graph::add_node`. -/
def add_node (g : UnDirected_Graph) (id : Int) : Bool × UnDirected_Graph :=
  if (StdMap.find g.m_nodes id).isSome then (false, g)
  else (true, { m_nodes := StdMap.assign g.m_nodes id ⟨id, f32_one⟩,
                m_edges := StdMap.emplace g.m_edges id [],
                m_edges_inv := StdMap.emplace g.m_edges_inv id [] })

/-- `UnDirected_Graph::add_edge`. -/
def add_edge (g : UnDirected_Graph) (from_ to_ : Int) (weight : Weight) :
    Bool × UnDirected_Graph :=
  if from_ = to_ then (false, g)
  else
    let lo := (canon from_ to_).1
    let hi := (canon from_ to_).2
    if (StdMap.find g.m_nodes lo).isNone || (StdMap.find g.m_nodes hi).isNone then (false, g)
    else (true, { g with
      m_edges := Graph_Base.store g.m_edges lo hi ⟨lo, hi, weight⟩,
      m_edges_inv := Graph_Base.store g.m_edges_inv hi lo ⟨hi, lo, weight⟩ })

/-- `UnDirected_Graph::remove_edge`: the test `m_edges[from]` creates the row
when absent, also on the failing path. -/
def remove_edge (g : UnDirected_Graph) (from_ to_ : Int) : Bool × UnDirected_Graph :=
  let lo := (canon from_ to_).1
  let hi := (canon from_ to_).2
  if (StdMap.find g.m_nodes lo).isNone || (StdMap.find g.m_nodes hi).isNone then (false, g)
  else if (StdMap.find (Graph_Base.rowAt g.m_edges lo) hi).isNone then
    (false, { g with m_edges := StdMap.emplace g.m_edges lo [] })
  else (true, { g with
    m_edges := Graph_Base.drop g.m_edges lo hi,
    m_edges_inv := Graph_Base.drop g.m_edges_inv hi lo })

/-- The loop `for (auto& edge : m_edges)` of `UnDirected_Graph::remove_node`,
over the row keys still to visit: when the visited row holds `id`,
`remove_edge(edge.first, id)` runs on the whole graph. The row is read from the
live table; `remove_edge` never erases a row. -/
def remove_node_loop (id : Int) : List Int → UnDirected_Graph → UnDirected_Graph
  | [], g => g
  | k :: ks, g =>
    if ((StdMap.find g.m_edges k).bind (fun row => StdMap.find row id)).isSome then
      remove_node_loop id ks (remove_edge g k id).2
    else remove_node_loop id ks g

/-- `UnDirected_Graph::remove_node`: the three `erase` calls come first, the
loop over the forward rows after them. -/
def remove_node (g : UnDirected_Graph) (id : Int) : Bool × UnDirected_Graph :=
  if (StdMap.find g.m_nodes id).isNone then (false, g)
  else
    let g1 : UnDirected_Graph :=
      { m_nodes := StdMap.erase g.m_nodes id,
        m_edges := StdMap.erase g.m_edges id,
        m_edges_inv := StdMap.erase g.m_edges_inv id }
    (true, remove_node_loop id (StdMap.keys g1.m_edges) g1)

/-- `UnDirected_Graph::getNearNode`: the base query, then the `to` member of
every entry of `m_edges_inv[id]`. -/
def getNearNode (g : UnDirected_Graph) (id : Int) : Finset Int × UnDirected_Graph :=
  let r := Graph_Base.getNearNode g.toGraph_Base id
  ((Graph_Base.rowAt g.m_edges_inv id).foldl (fun nodes edge => insert edge.2.to_ nodes) r.1,
   { r.2 with m_edges_inv := StdMap.emplace g.m_edges_inv id [] })

/-- `UnDirected_Graph::getNearEdges`: the base query, then the pair
`(from, to)` of every entry of `m_edges_inv[id]`. -/
def getNearEdges (g : UnDirected_Graph) (id : Int) : Finset (Int × Int) × UnDirected_Graph :=
  let r := Graph_Base.getNearEdges g.toGraph_Base id
  ((Graph_Base.rowAt g.m_edges_inv id).foldl
      (fun edges edge => insert (edge.2.from_, edge.2.to_) edges) r.1,
   { r.2 with m_edges_inv := StdMap.emplace g.m_edges_inv id [] })

end UnDirected_Graph

/-! ## `getSubGraph`

Both overrides copy `*this` into `subGraph` and then run
`for (auto& node : m_nodes) if (ids.find(node.first) == ids.end()) remove_node(node.first);`
where the unqualified `remove_node` is `this->remove_node`. The result is the
pair of the returned graph and the receiver after the call. A removal erases
the entry under the loop's own cursor, after which advancing that cursor is
undefined in C++; the model continues with the next key of the node table as
it was at loop entry (the removals erase no other node). -/

/-- `Directed_Graph::getSubGraph`: `(returned graph, receiver afterwards)`. -/
def Directed_Graph.getSubGraph (g : Directed_Graph) (ids : Finset Int) :
    Directed_Graph × Directed_Graph :=
  (g, (StdMap.keys g.m_nodes).foldl
        (fun this k => if k ∈ ids then this else (Directed_Graph.remove_node this k).2) g)

/-- `UnDirected_Graph::getSubGraph`: `(returned graph, receiver afterwards)`. -/
def UnDirected_Graph.getSubGraph (g : UnDirected_Graph) (ids : Finset Int) :
    UnDirected_Graph × UnDirected_Graph :=
  (g, (StdMap.keys g.m_nodes).foldl
        (fun this k => if k ∈ ids then this else (UnDirected_Graph.remove_node this k).2) g)

/-! ## `EdgeIterator` -/

/-- A `std::map<int, std::map<int, Graph_Edge>>::iterator` into `m_edges`. -/
inductive Cursor
  /-- Default-constructed and never assigned. -/
  | singular
  /-- On the row stored under the key. -/
  | entry (k : Int)
  /-- The table's `end()`. -/
  | past_end
  deriving DecidableEq, Repr

/-- A `std::map<int, Graph_Edge>::iterator` into one row of `m_edges`. -/
inductive NearCursor
  /-- Default-constructed and never assigned. -/
  | singular
  /-- On the edge stored under `key` in the row `row`. -/
  | entry (row key : Int)
  /-- The `end()` of the row `row`. -/
  | past_end (row : Int)
  deriving DecidableEq, Repr

/-- The entries that follow the entry stored under `k`; `none` when `k` is absent. -/
def StdMap.after {V : Type} : StdMap V → Int → Option (StdMap V)
  | [], _ => none
  | (k', _) :: t, k => if k' = k then some t else StdMap.after t k

/-- The `begin()` of the row `row`, given the entries it holds from there on. -/
def NearCursor.first (row : Int) : StdMap Graph_Edge → NearCursor
  | [] => NearCursor.past_end row
  | (k, _) :: _ => NearCursor.entry row k

/-- The data members of `Graph_Base::EdgeIterator` (beside the graph reference). -/
structure EdgeIterator where
  m_iterEdges : Cursor
  m_iterNearEdges : NearCursor
  deriving DecidableEq, Repr

/-- What running a piece of C++ gives: a value, undefined behaviour, or the
model's step budget ran out. -/
inductive Outcome (α : Type)
  | done (a : α)
  | undefined_behaviour
  | out_of_fuel
  deriving DecidableEq, Repr

namespace EdgeIterator

/-- `EdgeIterator::beginIterator`. -/
def beginIterator (g : Graph_Base) : EdgeIterator :=
  match g.m_edges with
  | [] => { m_iterEdges := Cursor.past_end, m_iterNearEdges := NearCursor.singular }
  | (k, row) :: _ => { m_iterEdges := Cursor.entry k, m_iterNearEdges := NearCursor.first k row }

/-- `EdgeIterator::endIterator`: `m_iterEdges` is set only when the table is
not empty. -/
def endIterator (g : Graph_Base) : EdgeIterator :=
  if g.m_edges.length ≠ 0 then
    { m_iterEdges := Cursor.past_end, m_iterNearEdges := NearCursor.singular }
  else { m_iterEdges := Cursor.singular, m_iterNearEdges := NearCursor.singular }

/-- `EdgeIterator::operator*`: defined only on a cursor that is on a stored edge. -/
def deref (g : Graph_Base) (it : EdgeIterator) : Option Graph_Edge :=
  match it.m_iterNearEdges with
  | NearCursor.entry r k => (StdMap.find g.m_edges r).bind (fun row => StdMap.find row k)
  | _ => none

/-- The `while` loop of `EdgeIterator::operator++`; `rows` are the rows of
`m_edges` after the one `m_iterEdges` is on. -/
def skip (it : EdgeIterator) : EdgeTable → EdgeIterator
  | [] =>
    match it.m_iterEdges with
    | Cursor.entry r =>
      if it.m_iterNearEdges = NearCursor.past_end r then { it with m_iterEdges := Cursor.past_end }
      else it
    | _ => it
  | (r', row') :: rows =>
    match it.m_iterEdges with
    | Cursor.entry r =>
      if it.m_iterNearEdges = NearCursor.past_end r then
        skip { m_iterEdges := Cursor.entry r', m_iterNearEdges := NearCursor.first r' row' } rows
      else it
    | _ => it

/-- `EdgeIterator::operator++`; `none` when it increments or reads through a
cursor that is not on an entry. -/
def next (g : Graph_Base) (it : EdgeIterator) : Option EdgeIterator :=
  match it.m_iterNearEdges, it.m_iterEdges with
  | NearCursor.entry r k, Cursor.entry ro =>
    match (StdMap.find g.m_edges r).bind (fun row => StdMap.after row k),
          StdMap.after g.m_edges ro with
    | some rest, some rows =>
      some (skip { m_iterEdges := Cursor.entry ro, m_iterNearEdges := NearCursor.first r rest } rows)
    | _, _ => none
  | _, _ => none

/-- `EdgeIterator::operator!=`. -/
def ne (it other : EdgeIterator) : Bool :=
  if it.m_iterEdges = Cursor.past_end then it.m_iterEdges != other.m_iterEdges
  else it.m_iterEdges != other.m_iterEdges || it.m_iterNearEdges != other.m_iterNearEdges

/-- The loop `for (it = begin; it != end; ++it) body(*it)` from the cursor
`it`, collecting the edges the body receives. -/
def run (g : Graph_Base) : Nat → EdgeIterator → List Graph_Edge → Outcome (List Graph_Edge)
  | 0, _, _ => Outcome.out_of_fuel
  | fuel + 1, it, seen =>
    if ne it (endIterator g) then
      match deref g it, next g it with
      | some e, some it' => run g fuel it' (seen ++ [e])
      | _, _ => Outcome.undefined_behaviour
    else Outcome.done seen

end EdgeIterator

/-- The range-based `for (auto& edge : graph.edges())`. -/
def Graph_Base.forEdges (g : Graph_Base) (fuel : Nat) : Outcome (List Graph_Edge) :=
  EdgeIterator.run g fuel (EdgeIterator.beginIterator g) []

/-! ## Representation invariant and reachable states -/

/-- A row whose keys ascend and whose edges are `Graph_Edge(a, key, _)`. -/
def RowOK (a : Int) (row : StdMap Graph_Edge) : Prop :=
  StdMap.Ordered row ∧ ∀ e ∈ row, e.2.from_ = a ∧ e.2.to_ = e.1

/-- The shape every adjacency table built by the member functions has: keys
ascending at both levels, and the edge stored at `[a][b]` is `Graph_Edge(a, b, _)`. -/
def EdgeTable.WF (t : EdgeTable) : Prop :=
  StdMap.Ordered t ∧
  ∀ r ∈ t, StdMap.Ordered r.2 ∧ ∀ e ∈ r.2, e.2.from_ = r.1 ∧ e.2.to_ = e.1

instance (t : EdgeTable) : Decidable (EdgeTable.WF t) :=
  inferInstanceAs (Decidable (StdMap.Ordered t ∧
    ∀ r ∈ t, StdMap.Ordered r.2 ∧ ∀ e ∈ r.2, e.2.from_ = r.1 ∧ e.2.to_ = e.1))

/-- Well-formed `Graph_Base` state. -/
def Graph_Base.WF (g : Graph_Base) : Prop := StdMap.Ordered g.m_nodes ∧ EdgeTable.WF g.m_edges

instance (g : Graph_Base) : Decidable (Graph_Base.WF g) :=
  inferInstanceAs (Decidable (StdMap.Ordered g.m_nodes ∧ EdgeTable.WF g.m_edges))

/-- Well-formed `UnDirected_Graph` state. -/
def UnDirected_Graph.WF (g : UnDirected_Graph) : Prop :=
  g.toGraph_Base.WF ∧ EdgeTable.WF g.m_edges_inv

instance (g : UnDirected_Graph) : Decidable (UnDirected_Graph.WF g) :=
  inferInstanceAs (Decidable (g.toGraph_Base.WF ∧ EdgeTable.WF g.m_edges_inv))

/-- The empty graph of either kind. -/
def Graph_Base.empty : Graph_Base := { m_nodes := [], m_edges := [] }

/-- The empty undirected graph. -/
def UnDirected_Graph.empty : UnDirected_Graph := { m_nodes := [], m_edges := [], m_edges_inv := [] }

/-- Directed graphs reachable from the empty graph by `add_node`,
`remove_node`, `add_edge` and `remove_edge` calls. -/
inductive Directed_Graph.Reachable : Directed_Graph → Prop
  | empty : Directed_Graph.Reachable Graph_Base.empty
  | add_node (g : Directed_Graph) (id : Int) :
      Directed_Graph.Reachable g → Directed_Graph.Reachable (Directed_Graph.add_node g id).2
  | remove_node (g : Directed_Graph) (id : Int) :
      Directed_Graph.Reachable g → Directed_Graph.Reachable (Directed_Graph.remove_node g id).2
  | add_edge (g : Directed_Graph) (a b : Int) (w : Weight) :
      Directed_Graph.Reachable g → Directed_Graph.Reachable (Directed_Graph.add_edge g a b w).2
  | remove_edge (g : Directed_Graph) (a b : Int) :
      Directed_Graph.Reachable g → Directed_Graph.Reachable (Directed_Graph.remove_edge g a b).2

/-- Undirected graphs reachable from the empty graph by `add_node`,
`remove_node`, `add_edge` and `remove_edge` calls. -/
inductive UnDirected_Graph.Reachable : UnDirected_Graph → Prop
  | empty : UnDirected_Graph.Reachable UnDirected_Graph.empty
  | add_node (g : UnDirected_Graph) (id : Int) :
      UnDirected_Graph.Reachable g → UnDirected_Graph.Reachable (UnDirected_Graph.add_node g id).2
  | remove_node (g : UnDirected_Graph) (id : Int) :
      UnDirected_Graph.Reachable g →
      UnDirected_Graph.Reachable (UnDirected_Graph.remove_node g id).2
  | add_edge (g : UnDirected_Graph) (a b : Int) (w : Weight) :
      UnDirected_Graph.Reachable g →
      UnDirected_Graph.Reachable (UnDirected_Graph.add_edge g a b w).2
  | remove_edge (g : UnDirected_Graph) (a b : Int) :
      UnDirected_Graph.Reachable g →
      UnDirected_Graph.Reachable (UnDirected_Graph.remove_edge g a b).2

/-- The `(row key, edge.to)` pairs of a table in row-major order: the sequence
`getAllEdges` inserts and `sizeEdge` counts. -/
def EdgeTable.pairs (t : EdgeTable) : List (Int × Int) :=
  t.flatMap (fun node => node.2.map (fun edge => (node.1, edge.2.to_)))

/-! ## Bulk operations -/

/-- `Graph_Base::add_nodes` on a directed graph: every `add_node` result is
dropped and `true` returned. -/
def Directed_Graph.add_nodes (g : Directed_Graph) (ids : List Int) : Bool × Directed_Graph :=
  (true, ids.foldl (fun this id => (Directed_Graph.add_node this id).2) g)

/-- `Graph_Base::add_edges` (pair form, weight `1.0`) on a directed graph. -/
def Directed_Graph.add_edges (g : Directed_Graph) (edges : List (Int × Int)) :
    Bool × Directed_Graph :=
  (true, edges.foldl (fun this edge => (Directed_Graph.add_edge this edge.1 edge.2 f32_one).2) g)

/-- `Graph_Base::add_nodes` on an undirected graph. -/
def UnDirected_Graph.add_nodes (g : UnDirected_Graph) (ids : List Int) :
    Bool × UnDirected_Graph :=
  (true, ids.foldl (fun this id => (UnDirected_Graph.add_node this id).2) g)

/-- `Graph_Base::add_edges` (pair form, weight `1.0`) on an undirected graph. -/
def UnDirected_Graph.add_edges (g : UnDirected_Graph) (edges : List (Int × Int)) :
    Bool × UnDirected_Graph :=
  (true, edges.foldl
    (fun this edge => (UnDirected_Graph.add_edge this edge.1 edge.2 f32_one).2) g)

/-! ## `NodeIterator` -/

/-- The `begin()` of a map, given the entries it holds from there on. -/
def Cursor.first {V : Type} : StdMap V → Cursor
  | [] => Cursor.past_end
  | (k, _) :: _ => Cursor.entry k

/-- The data member of `Graph_Base::NodeIterator` (beside the graph reference). -/
structure NodeIterator where
  m_iter : Cursor
  deriving DecidableEq, Repr

namespace NodeIterator

/-- `NodeIterator::beginIterator`. -/
def beginIterator (g : Graph_Base) : NodeIterator := { m_iter := Cursor.first g.m_nodes }

/-- `NodeIterator::endIterator`. -/
def endIterator (_g : Graph_Base) : NodeIterator := { m_iter := Cursor.past_end }

/-- `NodeIterator::operator*`: defined only on a cursor that is on a node. -/
def deref (g : Graph_Base) (it : NodeIterator) : Option Graph_Node :=
  match it.m_iter with
  | Cursor.entry k => StdMap.find g.m_nodes k
  | _ => none

/-- `NodeIterator::operator++`; `none` when the cursor is not on a node. -/
def next (g : Graph_Base) (it : NodeIterator) : Option NodeIterator :=
  match it.m_iter with
  | Cursor.entry k => (StdMap.after g.m_nodes k).map (fun rest => { m_iter := Cursor.first rest })
  | _ => none

/-- `NodeIterator::operator!=`. -/
def ne (it other : NodeIterator) : Bool := it.m_iter != other.m_iter

/-- The loop `for (it = begin; it != end; ++it) body(*it)` from the cursor
`it`, collecting the nodes the body receives. -/
def run (g : Graph_Base) : Nat → NodeIterator → List Graph_Node → Outcome (List Graph_Node)
  | 0, _, _ => Outcome.out_of_fuel
  | fuel + 1, it, seen =>
    if ne it (endIterator g) then
      match deref g it, next g it with
      | some n, some it' => run g fuel it' (seen ++ [n])
      | _, _ => Outcome.undefined_behaviour
    else Outcome.done seen

end NodeIterator

/-- The range-based `for (auto& node : graph.nodes())`. -/
def Graph_Base.forNodes (g : Graph_Base) (fuel : Nat) : Outcome (List Graph_Node) :=
  NodeIterator.run g fuel (NodeIterator.beginIterator g) []

/-! ## `NearNodeIterator` -/

/-- The data member of `Graph_Base::NearNodeIterator` (beside the graph reference). -/
structure NearNodeIterator where
  m_iterNearEdges : NearCursor
  deriving DecidableEq, Repr

namespace NearNodeIterator

/-- `NearNodeIterator::beginIterator`: `graph.m_edges[id].begin()`, where
`m_edges[id]` creates the row when absent. -/
def beginIterator (g : Graph_Base) (id : Int) : NearNodeIterator × Graph_Base :=
  ({ m_iterNearEdges := NearCursor.first id (Graph_Base.rowAt g.m_edges id) },
   { g with m_edges := StdMap.emplace g.m_edges id [] })

/-- `NearNodeIterator::endIterator`: `graph.m_edges[id].end()`. -/
def endIterator (g : Graph_Base) (id : Int) : NearNodeIterator × Graph_Base :=
  ({ m_iterNearEdges := NearCursor.past_end id },
   { g with m_edges := StdMap.emplace g.m_edges id [] })

/-- `NearNodeIterator::operator*`: `graph.m_nodes[m_iterNearEdges->second.from]`,
the node named by the `from` member of the edge under the cursor; `m_nodes[..]`
creates a zero-filled node when absent. -/
def deref (g : Graph_Base) (it : NearNodeIterator) : Option (Graph_Node × Graph_Base) :=
  match it.m_iterNearEdges with
  | NearCursor.entry r k =>
    ((StdMap.find g.m_edges r).bind (fun row => StdMap.find row k)).map (fun edge =>
      ((StdMap.find (StdMap.emplace g.m_nodes edge.from_ ⟨0, 0⟩) edge.from_).getD ⟨0, 0⟩,
       { g with m_nodes := StdMap.emplace g.m_nodes edge.from_ ⟨0, 0⟩ }))
  | _ => none

/-- `NearNodeIterator::operator++`: the cursor step `++m_iterNearEdges` (the C++
body ends without its `return` statement; the loop does not use the result). -/
def next (g : Graph_Base) (it : NearNodeIterator) : Option NearNodeIterator :=
  match it.m_iterNearEdges with
  | NearCursor.entry r k =>
    ((StdMap.find g.m_edges r).bind (fun row => StdMap.after row k)).map
      (fun rest => { m_iterNearEdges := NearCursor.first r rest })
  | _ => none

/-- `NearNodeIterator::operator!=`. -/
def ne (it other : NearNodeIterator) : Bool := it.m_iterNearEdges != other.m_iterNearEdges

/-- The loop `for (it = begin; it != last; ++it) body(*it)`, collecting the
nodes the body receives. -/
def run : Nat → Graph_Base → NearNodeIterator → NearNodeIterator → List Graph_Node →
    Outcome (List Graph_Node)
  | 0, _, _, _, _ => Outcome.out_of_fuel
  | fuel + 1, g, it, last, seen =>
    if ne it last then
      match deref g it with
      | some (n, g') =>
        match next g' it with
        | some it' => run fuel g' it' last (seen ++ [n])
        | none => Outcome.undefined_behaviour
      | none => Outcome.undefined_behaviour
    else Outcome.done seen

end NearNodeIterator

/-- The range-based `for (auto& node : graph.nearNodes(id))`: `begin()` and
`end()` are taken once, in this order. -/
def Graph_Base.forNearNodes (g : Graph_Base) (id : Int) (fuel : Nat) :
    Outcome (List Graph_Node) :=
  let b := NearNodeIterator.beginIterator g id
  let e := NearNodeIterator.endIterator b.2 id
  NearNodeIterator.run fuel e.2 b.1 e.1 []

/-! ## Further invariants of the reachable states -/

/-- The node table and an adjacency table list the same keys. -/
def KeysAgree (nodes : StdMap Graph_Node) (t : EdgeTable) : Prop :=
  StdMap.keys nodes = StdMap.keys t

/-- Every entry of the table sits at `[a][b]` with `a < b`. -/
def EdgeTable.Canonical (t : EdgeTable) : Prop := ∀ r ∈ t, ∀ e ∈ r.2, r.1 < e.1

/-- Every node is stored under its own id. -/
def NodesOK (nodes : StdMap Graph_Node) : Prop := ∀ n ∈ nodes, n.2.id = n.1

/-- The stored edges of a table as `(row key, neighbour key)` positions, in
row-major order: row by row, and inside a row entry by entry. -/
def EdgeTable.positions (t : EdgeTable) : List (Int × Int) :=
  t.flatMap (fun row => row.2.map (fun edge => (row.1, edge.1)))

/-- Row-major order on positions: ascending row id, then ascending neighbour id. -/
def RowMajorLt (x y : Int × Int) : Prop := x.1 < y.1 ∨ (x.1 = y.1 ∧ x.2 < y.2)

/-! ## Concrete graphs -/

namespace Example

/-- Undirected graph with nodes `{1, 2, 3}` and no edge. -/
def u123 : UnDirected_Graph :=
  (UnDirected_Graph.add_node (UnDirected_Graph.add_node
    (UnDirected_Graph.add_node UnDirected_Graph.empty 1).2 2).2 3).2

/-- Undirected graph with nodes `{1, 2, 3}` and the edge `(1, 2)` of weight 2.0. -/
def u123e : UnDirected_Graph := (UnDirected_Graph.add_edge u123 1 2 f32_two).2

/-- Undirected graph with the single node `1`. -/
def u1 : UnDirected_Graph := (UnDirected_Graph.add_node UnDirected_Graph.empty 1).2

/-- Directed graph with nodes `{1, 2}` and no edge. -/
def d12 : Directed_Graph :=
  (Directed_Graph.add_node (Directed_Graph.add_node Graph_Base.empty 1).2 2).2

/-- Directed graph with nodes `{1, 2}` and the edge `(1, 2)` of weight 1.0. -/
def d12e : Directed_Graph := (Directed_Graph.add_edge d12 1 2 f32_one).2

/-- Directed graph with nodes `{1, 2, 3}` and edges `(1, 2)`, `(2, 3)`, `(3, 1)`. -/
def d123c : Directed_Graph :=
  (Directed_Graph.add_edge (Directed_Graph.add_edge (Directed_Graph.add_edge
    (Directed_Graph.add_node d12 3).2 1 2 f32_one).2 2 3 f32_one).2 3 1 f32_one).2

/-- The undirected graph of the demo `main`: nodes `1..7`, then the 23 pairs. -/
def demo : UnDirected_Graph :=
  (UnDirected_Graph.add_edges (UnDirected_Graph.add_nodes UnDirected_Graph.empty
      [1, 2, 3, 4, 5, 6, 7]).2
    [(1, 2), (1, 6), (1, 7), (2, 1), (2, 3), (2, 6), (3, 2), (3, 6), (3, 5), (3, 4),
     (4, 3), (4, 5), (5, 3), (5, 4), (5, 6), (6, 1), (6, 2), (6, 3), (6, 5), (6, 7),
     (7, 1), (7, 5), (7, 6)]).2

/-- Directed graph with nodes `{1, 2}` and the edge `(2, 1)`: the row of node `1`
is empty. -/
def d21 : Directed_Graph := (Directed_Graph.add_edge d12 2 1 f32_one).2

/-- Directed graph with nodes `{1, 2, 3, 4}` and edges `(1, 2)`, `(1, 3)`,
`(4, 1)`: the rows of nodes `2` and `3` are empty. -/
def d4 : Directed_Graph :=
  (Directed_Graph.add_edges (Directed_Graph.add_nodes Graph_Base.empty [1, 2, 3, 4]).2
    [(1, 2), (1, 3), (4, 1)]).2

end Example


/-! ## Facts about `StdMap` -/

namespace StdMap

variable {V : Type}

theorem ordered_cons (k : Int) (v : V) (t : StdMap V) :
    Ordered ((k, v) :: t) ↔ (∀ e ∈ t, k < e.1) ∧ Ordered t := by
  simp [Ordered, List.pairwise_cons]

theorem ordered_tail {k : Int} {v : V} {t : StdMap V} (h : Ordered ((k, v) :: t)) : Ordered t :=
  ((ordered_cons k v t).1 h).2

theorem find_eq_none_of_forall_ne (m : StdMap V) (k : Int) (h : ∀ e ∈ m, e.1 ≠ k) :
    find m k = none := by
  induction m with
  | nil => rfl
  | cons hd t ih =>
    obtain ⟨k', v'⟩ := hd
    have h1 : k' ≠ k := h (k', v') (List.mem_cons_self _ _)
    simp only [find, h1, if_false]
    exact ih (fun e he => h e (List.mem_cons_of_mem _ he))

theorem find_eq_none_of_le {k k' : Int} {v' : V} {t : StdMap V}
    (h : Ordered ((k', v') :: t)) (hk : k ≤ k') : find t k = none := by
  apply find_eq_none_of_forall_ne
  intro e he
  have := ((ordered_cons k' v' t).1 h).1 e he
  omega

theorem mem_of_find {m : StdMap V} {k : Int} {v : V} (h : find m k = some v) : (k, v) ∈ m := by
  induction m with
  | nil => simp [find] at h
  | cons hd t ih =>
    obtain ⟨k', v'⟩ := hd
    simp only [find] at h
    split_ifs at h with h1
    · subst h1; simp at h; subst h; exact List.mem_cons_self _ _
    · exact List.mem_cons_of_mem _ (ih h)

theorem find_of_mem {m : StdMap V} (hm : Ordered m) {k : Int} {v : V} (h : (k, v) ∈ m) :
    find m k = some v := by
  induction m with
  | nil => simp at h
  | cons hd t ih =>
    obtain ⟨k', v'⟩ := hd
    rcases List.mem_cons.1 h with h1 | h1
    · cases h1; simp [find]
    · have hlt := ((ordered_cons k' v' t).1 hm).1 _ h1
      have : k' ≠ k := by simp at hlt; omega
      simp only [find, this, if_false]
      exact ih (ordered_tail hm) h1

theorem find_isSome_iff (m : StdMap V) (k : Int) : (find m k).isSome ↔ k ∈ keys m := by
  induction m with
  | nil => simp [find, keys]
  | cons hd t ih =>
    obtain ⟨k', v'⟩ := hd
    simp only [find, keys, List.map_cons, List.mem_cons]
    split_ifs with h1
    · simp [h1]
    · have h2 : ¬ k = k' := fun h => h1 h.symm
      simp only [h2, false_or]
      exact ih

theorem find_emplace_self {m : StdMap V} (hm : Ordered m) (k : Int) (v : V) :
    find (emplace m k v) k = some ((find m k).getD v) := by
  induction m with
  | nil => simp [emplace, find]
  | cons hd t ih =>
    obtain ⟨k', v'⟩ := hd
    simp only [emplace]
    split_ifs with h1 h2
    · have h3 : k' ≠ k := fun h => by omega
      simp [find, h3, find_eq_none_of_le hm (le_of_lt h1)]
    · subst h2; simp [find]
    · have h3 : k' ≠ k := fun h => h2 h.symm
      simp [find, ih (ordered_tail hm), h3]

theorem emplace_of_find {m : StdMap V} (hm : Ordered m) (k : Int) (v : V)
    (h : (find m k).isSome) : emplace m k v = m := by
  induction m with
  | nil => simp [find] at h
  | cons hd t ih =>
    obtain ⟨k', v'⟩ := hd
    simp only [emplace]
    split_ifs with h1 h2
    · exfalso
      have h3 : k' ≠ k := fun h => by omega
      simp [find, h3, find_eq_none_of_le hm (le_of_lt h1)] at h
    · rfl
    · have h3 : k' ≠ k := fun h => h2 h.symm
      simp only [find, h3, if_false] at h
      rw [ih (ordered_tail hm) h]

theorem find_erase_self {m : StdMap V} (hm : Ordered m) (k : Int) : find (erase m k) k = none := by
  induction m with
  | nil => rfl
  | cons hd t ih =>
    obtain ⟨k', v'⟩ := hd
    simp only [erase]
    split_ifs with h1
    · exact find_eq_none_of_le hm (le_of_eq h1.symm)
    · simp [find, h1, ih (ordered_tail hm)]

theorem erase_eq_filter {m : StdMap V} (hm : Ordered m) (k : Int) :
    erase m k = m.filter (fun e => decide (e.1 ≠ k)) := by
  induction m with
  | nil => rfl
  | cons hd t ih =>
    obtain ⟨k', v'⟩ := hd
    simp only [erase]
    split_ifs with h1
    · subst h1
      have : ∀ e ∈ t, decide (e.1 ≠ k') = true := by
        intro e he
        have := ((ordered_cons k' v' t).1 hm).1 e he
        simp; omega
      rw [List.filter_cons_of_neg (by simp), List.filter_eq_self.2 this]
    · rw [List.filter_cons_of_pos (by simpa using h1), ih (ordered_tail hm)]

theorem erase_of_find_none {m : StdMap V} (k : Int) (h : find m k = none) : erase m k = m := by
  induction m with
  | nil => rfl
  | cons hd t ih =>
    obtain ⟨k', v'⟩ := hd
    simp only [find] at h
    split_ifs at h with h1
    simp [erase, h1, ih h]

theorem keys_modify (m : StdMap V) (k : Int) (f : V → V) : keys (modify m k f) = keys m := by
  induction m with
  | nil => rfl
  | cons hd t ih =>
    obtain ⟨k', v'⟩ := hd
    simp only [modify]
    split_ifs with h1
    · simp [keys]
    · simp only [keys, List.map_cons] at ih ⊢; rw [ih]

theorem ordered_modify {m : StdMap V} (hm : Ordered m) (k : Int) (f : V → V) :
    Ordered (modify m k f) := by
  have := keys_modify m k f
  unfold Ordered keys at *
  rw [this]; exact hm

theorem mem_assign {m : StdMap V} {k : Int} {v : V} {e : Int × V} (h : e ∈ assign m k v) :
    e ∈ m ∨ e = (k, v) := by
  induction m with
  | nil => simp [assign] at h; exact Or.inr h
  | cons hd t ih =>
    obtain ⟨k', v'⟩ := hd
    simp only [assign] at h
    split_ifs at h with h1 h2
    · rcases List.mem_cons.1 h with h | h
      · exact Or.inr h
      · exact Or.inl h
    · rcases List.mem_cons.1 h with h | h
      · exact Or.inr h
      · exact Or.inl (List.mem_cons_of_mem _ h)
    · rcases List.mem_cons.1 h with h | h
      · exact Or.inl (h ▸ List.mem_cons_self _ _)
      · rcases ih h with h | h
        · exact Or.inl (List.mem_cons_of_mem _ h)
        · exact Or.inr h

theorem mem_emplace {m : StdMap V} {k : Int} {v : V} {e : Int × V} (h : e ∈ emplace m k v) :
    e ∈ m ∨ e = (k, v) := by
  induction m with
  | nil => simp [emplace] at h; exact Or.inr h
  | cons hd t ih =>
    obtain ⟨k', v'⟩ := hd
    simp only [emplace] at h
    split_ifs at h with h1 h2
    · rcases List.mem_cons.1 h with h | h
      · exact Or.inr h
      · exact Or.inl h
    · exact Or.inl h
    · rcases List.mem_cons.1 h with h | h
      · exact Or.inl (h ▸ List.mem_cons_self _ _)
      · rcases ih h with h | h
        · exact Or.inl (List.mem_cons_of_mem _ h)
        · exact Or.inr h

theorem mem_erase {m : StdMap V} {k : Int} {e : Int × V} (h : e ∈ erase m k) : e ∈ m := by
  induction m with
  | nil => simp [erase] at h
  | cons hd t ih =>
    obtain ⟨k', v'⟩ := hd
    simp only [erase] at h
    split_ifs at h with h1
    · exact List.mem_cons_of_mem _ h
    · rcases List.mem_cons.1 h with h | h
      · exact h ▸ List.mem_cons_self _ _
      · exact List.mem_cons_of_mem _ (ih h)

theorem mem_modify {m : StdMap V} {k : Int} {f : V → V} {e : Int × V} (h : e ∈ modify m k f) :
    e ∈ m ∨ ∃ v, (k, v) ∈ m ∧ e = (k, f v) := by
  induction m with
  | nil => simp [modify] at h
  | cons hd t ih =>
    obtain ⟨k', v'⟩ := hd
    simp only [modify] at h
    split_ifs at h with h1
    · rcases List.mem_cons.1 h with h | h
      · subst h1; exact Or.inr ⟨v', List.mem_cons_self _ _, h⟩
      · exact Or.inl (List.mem_cons_of_mem _ h)
    · rcases List.mem_cons.1 h with h | h
      · exact Or.inl (h ▸ List.mem_cons_self _ _)
      · rcases ih h with h | ⟨v, hv, he⟩
        · exact Or.inl (List.mem_cons_of_mem _ h)
        · exact Or.inr ⟨v, List.mem_cons_of_mem _ hv, he⟩

theorem ordered_assign {m : StdMap V} (hm : Ordered m) (k : Int) (v : V) :
    Ordered (assign m k v) := by
  induction m with
  | nil => simp [assign, Ordered]
  | cons hd t ih =>
    obtain ⟨k', v'⟩ := hd
    have h0 := (ordered_cons k' v' t).1 hm
    simp only [assign]
    split_ifs with h1 h2
    · refine (ordered_cons _ _ _).2 ⟨?_, hm⟩
      intro e he
      rcases List.mem_cons.1 he with he | he
      · subst he; exact h1
      · exact lt_trans h1 (h0.1 e he)
    · subst h2; exact (ordered_cons _ _ _).2 ⟨h0.1, h0.2⟩
    · refine (ordered_cons _ _ _).2 ⟨?_, ih h0.2⟩
      intro e he
      rcases mem_assign he with he | he
      · exact h0.1 e he
      · subst he; simp; omega

theorem ordered_emplace {m : StdMap V} (hm : Ordered m) (k : Int) (v : V) :
    Ordered (emplace m k v) := by
  induction m with
  | nil => simp [emplace, Ordered]
  | cons hd t ih =>
    obtain ⟨k', v'⟩ := hd
    have h0 := (ordered_cons k' v' t).1 hm
    simp only [emplace]
    split_ifs with h1 h2
    · refine (ordered_cons _ _ _).2 ⟨?_, hm⟩
      intro e he
      rcases List.mem_cons.1 he with he | he
      · subst he; exact h1
      · exact lt_trans h1 (h0.1 e he)
    · exact hm
    · refine (ordered_cons _ _ _).2 ⟨?_, ih h0.2⟩
      intro e he
      rcases mem_emplace he with he | he
      · exact h0.1 e he
      · subst he; simp; omega

theorem ordered_erase {m : StdMap V} (hm : Ordered m) (k : Int) : Ordered (erase m k) := by
  rw [erase_eq_filter hm]
  unfold Ordered at *
  exact hm.sublist ((List.filter_sublist _).map _)

theorem find_assign_self (m : StdMap V) (k : Int) (v : V) : find (assign m k v) k = some v := by
  induction m with
  | nil => simp [assign, find]
  | cons hd t ih =>
    obtain ⟨k', v'⟩ := hd
    simp only [assign]
    split_ifs with h1 h2
    · simp [find]
    · simp [find]
    · have : k' ≠ k := fun h => h2 h.symm
      simp [find, ih, this]

theorem find_assign_ne (m : StdMap V) (k j : Int) (v : V) (h : j ≠ k) :
    find (assign m k v) j = find m j := by
  induction m with
  | nil => simp [assign, find, h.symm]
  | cons hd t ih =>
    obtain ⟨k', v'⟩ := hd
    simp only [assign]
    split_ifs with h1 h2
    · simp [find, h.symm]
    · subst h2; simp [find, h.symm]
    · simp [find, ih]

theorem find_emplace_ne (m : StdMap V) (k j : Int) (v : V) (h : j ≠ k) :
    find (emplace m k v) j = find m j := by
  induction m with
  | nil => simp [emplace, find, h.symm]
  | cons hd t ih =>
    obtain ⟨k', v'⟩ := hd
    simp only [emplace]
    split_ifs with h1 h2
    · simp [find, h.symm]
    · rfl
    · simp [find, ih]

theorem find_modify_self (m : StdMap V) (k : Int) (f : V → V) :
    find (modify m k f) k = (find m k).map f := by
  induction m with
  | nil => simp [modify, find]
  | cons hd t ih =>
    obtain ⟨k', v'⟩ := hd
    simp only [modify]
    split_ifs with h1
    · simp [find, h1]
    · simp [find, h1, ih]

theorem find_modify_ne (m : StdMap V) (k j : Int) (f : V → V) (h : j ≠ k) :
    find (modify m k f) j = find m j := by
  induction m with
  | nil => simp [modify, find]
  | cons hd t ih =>
    obtain ⟨k', v'⟩ := hd
    simp only [modify]
    split_ifs with h1
    · subst h1; simp [find, h.symm]
    · simp [find, ih]

theorem find_erase_ne (m : StdMap V) (k j : Int) (h : j ≠ k) :
    find (erase m k) j = find m j := by
  induction m with
  | nil => simp [erase, find]
  | cons hd t ih =>
    obtain ⟨k', v'⟩ := hd
    simp only [erase]
    split_ifs with h1
    · subst h1; simp [find, h.symm]
    · simp [find, ih]

end StdMap

/-! ## Facts about the queries -/

theorem foldl_insert_eq {α β : Type} [DecidableEq β] (f : α → β) (l : List α) (s : Finset β) :
    l.foldl (fun acc x => insert (f x) acc) s = s ∪ (l.map f).toFinset := by
  induction l generalizing s with
  | nil => simp
  | cons x t ih =>
    simp only [List.foldl_cons, ih, List.map_cons, List.toFinset_cons]
    ext y; simp only [Finset.mem_union, Finset.mem_insert]; tauto

theorem getAllNodes_eq (g : Graph_Base) : g.getAllNodes = (StdMap.keys g.m_nodes).toFinset := by
  unfold Graph_Base.getAllNodes StdMap.keys
  rw [foldl_insert_eq]; simp

theorem mem_getAllNodes (g : Graph_Base) (x : Int) :
    x ∈ g.getAllNodes ↔ (StdMap.find g.m_nodes x).isSome := by
  rw [getAllNodes_eq, List.mem_toFinset, StdMap.find_isSome_iff]

theorem getAllEdges_fold (t : EdgeTable) (s : Finset (Int × Int)) :
    t.foldl (fun edges node =>
        node.2.foldl (fun edges edge => insert (node.1, edge.2.to_) edges) edges) s
      = s ∪ (EdgeTable.pairs t).toFinset := by
  induction t generalizing s with
  | nil => simp [EdgeTable.pairs]
  | cons r t ih =>
    simp only [List.foldl_cons, ih, EdgeTable.pairs, List.flatMap_cons, List.toFinset_append]
    rw [foldl_insert_eq (fun edge : Int × Graph_Edge => (r.1, edge.2.to_))]
    rw [Finset.union_assoc]

theorem getAllEdges_eq (g : Graph_Base) : g.getAllEdges = (EdgeTable.pairs g.m_edges).toFinset := by
  unfold Graph_Base.getAllEdges
  rw [getAllEdges_fold]; simp

theorem sizeEdge_fold (t : EdgeTable) (n : Nat) :
    t.foldl (fun i near_edges => i + near_edges.2.length) n = n + (EdgeTable.pairs t).length := by
  induction t generalizing n with
  | nil => simp [EdgeTable.pairs]
  | cons r t ih =>
    simp only [List.foldl_cons, ih, EdgeTable.pairs, List.flatMap_cons, List.length_append,
      List.length_map]
    omega

theorem sizeEdge_eq (g : Graph_Base) : g.sizeEdge = (EdgeTable.pairs g.m_edges).length := by
  unfold Graph_Base.sizeEdge
  rw [sizeEdge_fold]; simp

theorem rowAt_eq {t : EdgeTable} (ht : StdMap.Ordered t) (id : Int) :
    Graph_Base.rowAt t id = (StdMap.find t id).getD [] := by
  unfold Graph_Base.rowAt
  rw [StdMap.find_emplace_self ht]; rfl

theorem getNearNode_eq (g : Graph_Base) (id : Int) :
    (g.getNearNode id).1
      = ((Graph_Base.rowAt g.m_edges id).map (fun edge => edge.2.to_)).toFinset := by
  unfold Graph_Base.getNearNode
  simp only
  rw [foldl_insert_eq (fun edge : Int × Graph_Edge => edge.2.to_)]; simp

theorem undirected_getNearNode_eq (g : UnDirected_Graph) (id : Int) :
    (g.getNearNode id).1
      = ((Graph_Base.rowAt g.m_edges id).map (fun edge => edge.2.to_)).toFinset ∪
        ((Graph_Base.rowAt g.m_edges_inv id).map (fun edge => edge.2.to_)).toFinset := by
  unfold UnDirected_Graph.getNearNode
  simp only
  rw [foldl_insert_eq (fun edge : Int × Graph_Edge => edge.2.to_), getNearNode_eq]

/-- The row under `a` after `m_edges[a][b] = e`. -/
theorem rowAt_store_self {t : EdgeTable} (ht : StdMap.Ordered t) (a b : Int) (e : Graph_Edge) :
    Graph_Base.rowAt (Graph_Base.store t a b e) a = StdMap.assign (Graph_Base.rowAt t a) b e := by
  unfold Graph_Base.store
  rw [rowAt_eq (StdMap.ordered_modify (StdMap.ordered_emplace ht a []) a _),
    StdMap.find_modify_self, StdMap.find_emplace_self ht, rowAt_eq ht]
  rfl

/-- The row under `c ≠ a` is not touched by an update of the row under `a`. -/
theorem rowAt_update_ne {t : EdgeTable} (ht : StdMap.Ordered t) (a c : Int)
    (f : StdMap Graph_Edge → StdMap Graph_Edge) (h : c ≠ a) :
    Graph_Base.rowAt (StdMap.modify (StdMap.emplace t a []) a f) c = Graph_Base.rowAt t c := by
  rw [rowAt_eq (StdMap.ordered_modify (StdMap.ordered_emplace ht a []) a _),
    StdMap.find_modify_ne _ _ _ _ h, StdMap.find_emplace_ne _ _ _ _ h, rowAt_eq ht]

/-! ## Facts about `add_edge` -/

/-- After `t[a][b] = e`, the neighbour list read from row `a` holds `e.to_`. -/
theorem mem_near_of_store {t : EdgeTable} (ht : StdMap.Ordered t) (a b : Int) (e : Graph_Edge) :
    e.to_ ∈ ((Graph_Base.rowAt (Graph_Base.store t a b e) a).map
      (fun edge => edge.2.to_)).toFinset := by
  rw [rowAt_store_self ht, List.mem_toFinset, List.mem_map]
  exact ⟨(b, e), StdMap.mem_of_find (StdMap.find_assign_self _ b e), rfl⟩

theorem canon_cases (a b : Int) :
    (a ≤ b ∧ UnDirected_Graph.canon a b = (a, b)) ∨
      (b < a ∧ UnDirected_Graph.canon a b = (b, a)) := by
  unfold UnDirected_Graph.canon
  by_cases h : a > b
  · right; exact ⟨h, by simp [h]⟩
  · left; exact ⟨by omega, by simp [h]⟩

/-- What a successful `UnDirected_Graph::add_edge` stores. -/
theorem undirected_add_edge_ok (g : UnDirected_Graph) (a b : Int) (w : Weight)
    (h : (UnDirected_Graph.add_edge g a b w).1 = true) :
    a ≠ b ∧
    (UnDirected_Graph.add_edge g a b w).2 =
      { g with
        m_edges := Graph_Base.store g.m_edges (UnDirected_Graph.canon a b).1
          (UnDirected_Graph.canon a b).2
          ⟨(UnDirected_Graph.canon a b).1, (UnDirected_Graph.canon a b).2, w⟩,
        m_edges_inv := Graph_Base.store g.m_edges_inv (UnDirected_Graph.canon a b).2
          (UnDirected_Graph.canon a b).1
          ⟨(UnDirected_Graph.canon a b).2, (UnDirected_Graph.canon a b).1, w⟩ } := by
  unfold UnDirected_Graph.add_edge at h ⊢
  by_cases hab : a = b
  · simp [hab] at h
  · simp only [hab, if_false] at h ⊢
    by_cases h1 : ((StdMap.find g.m_nodes (UnDirected_Graph.canon a b).1).isNone ||
        (StdMap.find g.m_nodes (UnDirected_Graph.canon a b).2).isNone) = true
    · simp [h1] at h
    · simp only [h1, if_false]
      exact ⟨hab, rfl⟩

/-- What a successful `Directed_Graph::add_edge` stores. -/
theorem directed_add_edge_ok (g : Directed_Graph) (a b : Int) (w : Weight)
    (h : (Directed_Graph.add_edge g a b w).1 = true) :
    a ≠ b ∧
    (Directed_Graph.add_edge g a b w).2 =
      { g with m_edges := Graph_Base.store g.m_edges a b ⟨a, b, w⟩ } := by
  unfold Directed_Graph.add_edge at h ⊢
  by_cases hab : a = b
  · simp [hab] at h
  · simp only [hab, if_false] at h ⊢
    by_cases h1 : ((StdMap.find g.m_nodes a).isNone || (StdMap.find g.m_nodes b).isNone) = true
    · simp [h1] at h
    · simp only [h1, if_false]
      exact ⟨hab, rfl⟩

/-! ## The representation invariant is preserved -/

theorem wf_iff (t : EdgeTable) : EdgeTable.WF t ↔ StdMap.Ordered t ∧ ∀ r ∈ t, RowOK r.1 r.2 :=
  Iff.rfl

theorem rowOK_nil (a : Int) : RowOK a [] := ⟨by simp [StdMap.Ordered], by simp⟩

theorem rowOK_assign {a : Int} {row : StdMap Graph_Edge} (h : RowOK a row) (b : Int)
    (w : Weight) : RowOK a (StdMap.assign row b ⟨a, b, w⟩) := by
  refine ⟨StdMap.ordered_assign h.1 b _, ?_⟩
  intro e he
  rcases StdMap.mem_assign he with he | he
  · exact h.2 e he
  · subst he; exact ⟨rfl, rfl⟩

theorem rowOK_erase {a : Int} {row : StdMap Graph_Edge} (h : RowOK a row) (b : Int) :
    RowOK a (StdMap.erase row b) :=
  ⟨StdMap.ordered_erase h.1 b, fun e he => h.2 e (StdMap.mem_erase he)⟩

theorem wf_emplace_nil {t : EdgeTable} (ht : EdgeTable.WF t) (a : Int) :
    EdgeTable.WF (StdMap.emplace t a []) := by
  rw [wf_iff] at ht ⊢
  refine ⟨StdMap.ordered_emplace ht.1 a [], ?_⟩
  intro r hr
  rcases StdMap.mem_emplace hr with hr | hr
  · exact ht.2 r hr
  · subst hr; exact rowOK_nil a

theorem wf_modify {t : EdgeTable} (ht : EdgeTable.WF t) (a : Int)
    (f : StdMap Graph_Edge → StdMap Graph_Edge) (hf : ∀ row, RowOK a row → RowOK a (f row)) :
    EdgeTable.WF (StdMap.modify t a f) := by
  rw [wf_iff] at ht ⊢
  refine ⟨StdMap.ordered_modify ht.1 a f, ?_⟩
  intro r hr
  rcases StdMap.mem_modify hr with hr | ⟨v, hv, hr⟩
  · exact ht.2 r hr
  · subst hr; exact hf v (ht.2 (a, v) hv)

theorem wf_store {t : EdgeTable} (ht : EdgeTable.WF t) (a b : Int) (w : Weight) :
    EdgeTable.WF (Graph_Base.store t a b ⟨a, b, w⟩) :=
  wf_modify (wf_emplace_nil ht a) a _ (fun _ h => rowOK_assign h b w)

theorem wf_drop {t : EdgeTable} (ht : EdgeTable.WF t) (a b : Int) :
    EdgeTable.WF (Graph_Base.drop t a b) :=
  wf_modify (wf_emplace_nil ht a) a _ (fun _ h => rowOK_erase h b)

theorem wf_erase {t : EdgeTable} (ht : EdgeTable.WF t) (a : Int) :
    EdgeTable.WF (StdMap.erase t a) := by
  rw [wf_iff] at ht ⊢
  exact ⟨StdMap.ordered_erase ht.1 a, fun r hr => ht.2 r (StdMap.mem_erase hr)⟩

/-- The rows as `Directed_Graph::remove_node` leaves them. -/
theorem wf_prune {t : EdgeTable} (ht : EdgeTable.WF t) (id : Int) :
    EdgeTable.WF (t.map (fun edge =>
      (edge.1, if (StdMap.find edge.2 id).isSome then StdMap.erase edge.2 id else edge.2))) := by
  rw [wf_iff] at ht ⊢
  constructor
  · have : (t.map (fun edge : Int × StdMap Graph_Edge =>
        (edge.1, if (StdMap.find edge.2 id).isSome then StdMap.erase edge.2 id else edge.2))).map
          Prod.fst = t.map Prod.fst := by
      rw [List.map_map]; rfl
    unfold StdMap.Ordered
    rw [this]; exact ht.1
  · intro r hr
    obtain ⟨r0, hr0, rfl⟩ := List.mem_map.1 hr
    simp only
    split_ifs
    · exact rowOK_erase (ht.2 r0 hr0) id
    · exact ht.2 r0 hr0

theorem directed_add_node_wf {g : Directed_Graph} (hg : g.WF) (id : Int) :
    (Directed_Graph.add_node g id).2.WF := by
  unfold Directed_Graph.add_node
  split_ifs
  · exact hg
  · exact ⟨StdMap.ordered_assign hg.1 id _, wf_emplace_nil hg.2 id⟩

theorem directed_remove_node_wf {g : Directed_Graph} (hg : g.WF) (id : Int) :
    (Directed_Graph.remove_node g id).2.WF := by
  unfold Directed_Graph.remove_node
  split_ifs
  · exact hg
  · exact ⟨StdMap.ordered_erase hg.1 id, wf_prune (wf_erase hg.2 id) id⟩

theorem directed_add_edge_wf {g : Directed_Graph} (hg : g.WF) (a b : Int) (w : Weight) :
    (Directed_Graph.add_edge g a b w).2.WF := by
  unfold Directed_Graph.add_edge
  split_ifs
  · exact hg
  · exact hg
  · exact ⟨hg.1, wf_store hg.2 a b w⟩

theorem directed_remove_edge_wf {g : Directed_Graph} (hg : g.WF) (a b : Int) :
    (Directed_Graph.remove_edge g a b).2.WF := by
  unfold Directed_Graph.remove_edge
  split_ifs
  · exact hg
  · exact ⟨hg.1, wf_emplace_nil hg.2 a⟩
  · exact ⟨hg.1, wf_drop hg.2 a b⟩

theorem directed_reachable_wf {g : Directed_Graph} (h : Directed_Graph.Reachable g) : g.WF := by
  induction h with
  | empty => decide
  | add_node g id _ ih => exact directed_add_node_wf ih id
  | remove_node g id _ ih => exact directed_remove_node_wf ih id
  | add_edge g a b w _ ih => exact directed_add_edge_wf ih a b w
  | remove_edge g a b _ ih => exact directed_remove_edge_wf ih a b

theorem undirected_add_node_wf {g : UnDirected_Graph} (hg : g.WF) (id : Int) :
    (UnDirected_Graph.add_node g id).2.WF := by
  unfold UnDirected_Graph.add_node
  split_ifs
  · exact hg
  · exact ⟨⟨StdMap.ordered_assign hg.1.1 id _, wf_emplace_nil hg.1.2 id⟩, wf_emplace_nil hg.2 id⟩

theorem undirected_add_edge_wf {g : UnDirected_Graph} (hg : g.WF) (a b : Int) (w : Weight) :
    (UnDirected_Graph.add_edge g a b w).2.WF := by
  unfold UnDirected_Graph.add_edge
  split_ifs
  · exact hg
  · simp only
    split_ifs
    · exact hg
    · exact ⟨⟨hg.1.1, wf_store hg.1.2 _ _ w⟩, wf_store hg.2 _ _ w⟩

theorem undirected_remove_edge_wf {g : UnDirected_Graph} (hg : g.WF) (a b : Int) :
    (UnDirected_Graph.remove_edge g a b).2.WF := by
  unfold UnDirected_Graph.remove_edge
  simp only
  split_ifs
  · exact hg
  · exact ⟨⟨hg.1.1, wf_emplace_nil hg.1.2 _⟩, hg.2⟩
  · exact ⟨⟨hg.1.1, wf_drop hg.1.2 _ _⟩, wf_drop hg.2 _ _⟩

theorem undirected_remove_node_loop_wf (id : Int) (ks : List Int) {g : UnDirected_Graph}
    (hg : g.WF) : (UnDirected_Graph.remove_node_loop id ks g).WF := by
  induction ks generalizing g with
  | nil => exact hg
  | cons k ks ih =>
    unfold UnDirected_Graph.remove_node_loop
    split_ifs
    · exact ih (undirected_remove_edge_wf hg k id)
    · exact ih hg

theorem undirected_remove_node_wf {g : UnDirected_Graph} (hg : g.WF) (id : Int) :
    (UnDirected_Graph.remove_node g id).2.WF := by
  unfold UnDirected_Graph.remove_node
  split_ifs
  · exact hg
  · exact undirected_remove_node_loop_wf id _
      ⟨⟨StdMap.ordered_erase hg.1.1 id, wf_erase hg.1.2 id⟩, wf_erase hg.2 id⟩

theorem undirected_reachable_wf {g : UnDirected_Graph} (h : UnDirected_Graph.Reachable g) :
    g.WF := by
  induction h with
  | empty => decide
  | add_node g id _ ih => exact undirected_add_node_wf ih id
  | remove_node g id _ ih => exact undirected_remove_node_wf ih id
  | add_edge g a b w _ ih => exact undirected_add_edge_wf ih a b w
  | remove_edge g a b _ ih => exact undirected_remove_edge_wf ih a b

/-! ## The stored pairs -/

theorem pairs_cons (r : Int × StdMap Graph_Edge) (t : EdgeTable) :
    EdgeTable.pairs (r :: t) = r.2.map (fun edge => (r.1, edge.2.to_)) ++ EdgeTable.pairs t := by
  simp [EdgeTable.pairs]

theorem mem_pairs {t : EdgeTable} {p : Int × Int} :
    p ∈ EdgeTable.pairs t ↔ ∃ r ∈ t, ∃ e ∈ r.2, (r.1, e.2.to_) = p := by
  simp [EdgeTable.pairs, List.mem_flatMap, List.mem_map]

theorem wf_cons {k : Int} {row : StdMap Graph_Edge} {t : EdgeTable}
    (h : EdgeTable.WF ((k, row) :: t)) :
    (∀ r ∈ t, k < r.1) ∧ RowOK k row ∧ EdgeTable.WF t := by
  rw [wf_iff] at h
  exact ⟨((StdMap.ordered_cons k row t).1 h.1).1, h.2 (k, row) (List.mem_cons_self _ _),
    (wf_iff t).2 ⟨StdMap.ordered_tail h.1, fun r hr => h.2 r (List.mem_cons_of_mem _ hr)⟩⟩

/-- The pairs of one well-formed row are pairwise distinct. -/
theorem row_pairs_nodup {k : Int} {row : StdMap Graph_Edge} (h : RowOK k row) :
    (row.map (fun edge => (k, edge.2.to_))).Nodup := by
  unfold List.Nodup
  rw [List.pairwise_map]
  have h1 : row.Pairwise (fun x y => x.1 < y.1) := List.pairwise_map.1 h.1
  refine h1.imp_of_mem ?_
  intro x y hx hy hlt heq
  have hx2 := (h.2 x hx).2
  have hy2 := (h.2 y hy).2
  have : x.2.to_ = y.2.to_ := (Prod.mk.inj heq).2
  omega

/-- In a well-formed table no pair is stored twice. -/
theorem pairs_nodup {t : EdgeTable} (ht : EdgeTable.WF t) : (EdgeTable.pairs t).Nodup := by
  induction t with
  | nil => simp [EdgeTable.pairs]
  | cons r t ih =>
    obtain ⟨k, row⟩ := r
    obtain ⟨hlt, hrow, htl⟩ := wf_cons ht
    rw [pairs_cons, List.nodup_append]
    refine ⟨row_pairs_nodup hrow, ih htl, ?_⟩
    intro p hp1 hp2
    obtain ⟨e, _, rfl⟩ := List.mem_map.1 hp1
    obtain ⟨r', hr', e', _, heq⟩ := mem_pairs.1 hp2
    have h1 := hlt r' hr'
    have h2 : r'.1 = k := (Prod.mk.inj heq).1
    omega

theorem prune_eq_erase (row : StdMap Graph_Edge) (x : Int) :
    (if (StdMap.find row x).isSome then StdMap.erase row x else row) = StdMap.erase row x := by
  split_ifs with h
  · rfl
  · rw [StdMap.erase_of_find_none x (by simpa using h)]

/-- The pairs left by the pruning of `Directed_Graph::remove_node`. -/
theorem pairs_remove {t : EdgeTable} (ht : EdgeTable.WF t) (x : Int) :
    EdgeTable.pairs ((StdMap.erase t x).map (fun edge =>
        (edge.1, if (StdMap.find edge.2 x).isSome then StdMap.erase edge.2 x else edge.2)))
      = (EdgeTable.pairs t).filter (fun p => decide (p.1 ≠ x ∧ p.2 ≠ x)) := by
  induction t with
  | nil => rfl
  | cons r t ih =>
    obtain ⟨k, row⟩ := r
    obtain ⟨hlt, hrow, htl⟩ := wf_cons ht
    rw [pairs_cons, List.filter_append, ← ih htl]
    by_cases hk : k = x
    · subst hk
      have h1 : StdMap.erase ((k, row) :: t) k = StdMap.erase t k := by
        rw [StdMap.erase_of_find_none (m := t) k (StdMap.find_eq_none_of_le ht.1 (le_refl k))]
        simp [StdMap.erase]
      have h2 : (row.map (fun edge => (k, edge.2.to_))).filter
          (fun p => decide (p.1 ≠ k ∧ p.2 ≠ k)) = [] := by
        rw [List.filter_eq_nil_iff]
        intro p hp
        obtain ⟨e, _, rfl⟩ := List.mem_map.1 hp
        simp
      rw [h1, h2, List.nil_append]
    · have h1 : StdMap.erase ((k, row) :: t) x = (k, row) :: StdMap.erase t x := by
        simp [StdMap.erase, hk]
      rw [h1, List.map_cons, pairs_cons]
      congr 1
      simp only [prune_eq_erase]
      rw [StdMap.erase_eq_filter hrow.1, List.filter_map, List.filter_congr]
      intro e he
      have := (hrow.2 e he).2
      simp [hk, this]

/-! ## What the loop of `UnDirected_Graph::remove_node` does -/

/-- With `id` no longer in the node table, `remove_edge(k, id)` fails at its
first test and leaves the graph as it is. -/
theorem undirected_remove_edge_absent (g : UnDirected_Graph) (k id : Int)
    (h : StdMap.find g.m_nodes id = none) : UnDirected_Graph.remove_edge g k id = (false, g) := by
  unfold UnDirected_Graph.remove_edge
  rcases canon_cases k id with ⟨_, hc⟩ | ⟨_, hc⟩ <;> simp [hc, h]

/-- The loop runs after `m_nodes.erase(id)`, so it removes nothing. -/
theorem undirected_remove_node_loop_noop (id : Int) (ks : List Int) (g : UnDirected_Graph)
    (h : StdMap.find g.m_nodes id = none) : UnDirected_Graph.remove_node_loop id ks g = g := by
  induction ks with
  | nil => rfl
  | cons k ks ih =>
    unfold UnDirected_Graph.remove_node_loop
    rw [undirected_remove_edge_absent g k id h]
    simp [ih]

/-- `UnDirected_Graph::remove_node` on a present node amounts to its three
`erase` calls. -/
theorem undirected_remove_node_eq (g : UnDirected_Graph) (id : Int)
    (hg : StdMap.Ordered g.m_nodes) (h : (StdMap.find g.m_nodes id).isSome) :
    UnDirected_Graph.remove_node g id =
      (true, { m_nodes := StdMap.erase g.m_nodes id,
               m_edges := StdMap.erase g.m_edges id,
               m_edges_inv := StdMap.erase g.m_edges_inv id }) := by
  unfold UnDirected_Graph.remove_node
  have h' : (StdMap.find g.m_nodes id).isNone = false := by
    cases hf : StdMap.find g.m_nodes id <;> simp_all
  simp only [h', Bool.false_eq_true, if_false]
  rw [undirected_remove_node_loop_noop id _ _ (StdMap.find_erase_self hg id)]

theorem u123e_reachable : UnDirected_Graph.Reachable Example.u123e :=
  UnDirected_Graph.Reachable.add_edge _ 1 2 f32_two
    (UnDirected_Graph.Reachable.add_node _ 3
      (UnDirected_Graph.Reachable.add_node _ 2
        (UnDirected_Graph.Reachable.add_node _ 1 UnDirected_Graph.Reachable.empty)))

theorem u123_reachable : UnDirected_Graph.Reachable Example.u123 :=
  UnDirected_Graph.Reachable.add_node _ 3
    (UnDirected_Graph.Reachable.add_node _ 2
      (UnDirected_Graph.Reachable.add_node _ 1 UnDirected_Graph.Reachable.empty))

theorem u1_reachable : UnDirected_Graph.Reachable Example.u1 :=
  UnDirected_Graph.Reachable.add_node _ 1 UnDirected_Graph.Reachable.empty

theorem d12e_reachable : Directed_Graph.Reachable Example.d12e :=
  Directed_Graph.Reachable.add_edge _ 1 2 f32_one
    (Directed_Graph.Reachable.add_node _ 2
      (Directed_Graph.Reachable.add_node _ 1 Directed_Graph.Reachable.empty))

theorem d123c_reachable : Directed_Graph.Reachable Example.d123c :=
  Directed_Graph.Reachable.add_edge _ 3 1 f32_one
    (Directed_Graph.Reachable.add_edge _ 2 3 f32_one
      (Directed_Graph.Reachable.add_edge _ 1 2 f32_one
        (Directed_Graph.Reachable.add_node _ 3
          (Directed_Graph.Reachable.add_node _ 2
            (Directed_Graph.Reachable.add_node _ 1 Directed_Graph.Reachable.empty)))))

/-! ## Claims on `add_edge` -/

/-- C7: in an undirected graph (any well-formed state), an `add_edge(a, b, w)`
that returns true leaves `b` in `getNearNode(a)` and `a` in `getNearNode(b)`. -/
theorem undirected_add_edge_links_both (g : UnDirected_Graph) (a b : Int) (w : Weight)
    (hg : g.WF) (h : (UnDirected_Graph.add_edge g a b w).1 = true) :
    b ∈ (UnDirected_Graph.getNearNode (UnDirected_Graph.add_edge g a b w).2 a).1 ∧
    a ∈ (UnDirected_Graph.getNearNode (UnDirected_Graph.add_edge g a b w).2 b).1 := by
  obtain ⟨_, hst⟩ := undirected_add_edge_ok g a b w h
  rw [hst]
  simp only [undirected_getNearNode_eq, Finset.mem_union]
  have hf := hg.1.2.1
  have hi := hg.2.1
  rcases canon_cases a b with ⟨_, hc⟩ | ⟨_, hc⟩
  · rw [hc]
    exact ⟨Or.inl (mem_near_of_store hf a b ⟨a, b, w⟩),
      Or.inr (mem_near_of_store hi b a ⟨b, a, w⟩)⟩
  · rw [hc]
    exact ⟨Or.inr (mem_near_of_store hi a b ⟨a, b, w⟩),
      Or.inl (mem_near_of_store hf b a ⟨b, a, w⟩)⟩

/-- C7 at the spec's scenario: nodes `{1, 2, 3}`, then `add_edge(1, 2, 2.0)` gives
`getNearNode(1) = {2}`, `getNearNode(2) = {1}` and `sizeEdge() = 1`. -/
theorem undirected_add_edge_links_both_witness :
    Example.u123.WF ∧ (UnDirected_Graph.add_edge Example.u123 1 2 f32_two).1 = true ∧
    ((2 : Int) ∈ (UnDirected_Graph.getNearNode
        (UnDirected_Graph.add_edge Example.u123 1 2 f32_two).2 1).1 ∧
      (1 : Int) ∈ (UnDirected_Graph.getNearNode
        (UnDirected_Graph.add_edge Example.u123 1 2 f32_two).2 2).1) ∧
    (UnDirected_Graph.getNearNode Example.u123e 1).1 = {2} ∧
    (UnDirected_Graph.getNearNode Example.u123e 2).1 = {1} ∧
    Example.u123e.sizeEdge = 1 :=
  ⟨by decide, by decide,
   undirected_add_edge_links_both Example.u123 1 2 f32_two (by decide) (by decide),
   by decide, by decide, by decide⟩

/-- C8: in a directed graph (any well-formed state), an `add_edge(a, b, w)` that
returns true leaves `b` in `getNearNode(a)` and does not change `getNearNode(c)`
for any `c` other than `a`; so `a` is in `getNearNode(b)` afterwards only if it
was before. -/
theorem directed_add_edge_one_way (g : Directed_Graph) (a b : Int) (w : Weight)
    (hg : g.WF) (h : (Directed_Graph.add_edge g a b w).1 = true) :
    b ∈ (Graph_Base.getNearNode (Directed_Graph.add_edge g a b w).2 a).1 ∧
    (∀ c : Int, c ≠ a →
      (Graph_Base.getNearNode (Directed_Graph.add_edge g a b w).2 c).1
        = (Graph_Base.getNearNode g c).1) ∧
    (a ∈ (Graph_Base.getNearNode (Directed_Graph.add_edge g a b w).2 b).1 →
      a ∈ (Graph_Base.getNearNode g b).1) := by
  obtain ⟨hab, hst⟩ := directed_add_edge_ok g a b w h
  rw [hst]
  have hf := hg.2.1
  have hframe : ∀ c : Int, c ≠ a →
      (Graph_Base.getNearNode { g with m_edges := Graph_Base.store g.m_edges a b ⟨a, b, w⟩ } c).1
        = (Graph_Base.getNearNode g c).1 := by
    intro c hc
    simp only [getNearNode_eq, Graph_Base.store]
    rw [rowAt_update_ne hf a c _ hc]
  refine ⟨?_, hframe, ?_⟩
  · simp only [getNearNode_eq]
    exact mem_near_of_store hf a b ⟨a, b, w⟩
  · intro hin
    rw [hframe b (Ne.symm hab)] at hin
    exact hin

/-- C8 at the spec's scenario: nodes `{1, 2}`, then `add_edge(1, 2)` gives
`getNearNode(1) = {2}` and `getNearNode(2) = {}`. -/
theorem directed_add_edge_one_way_witness :
    Example.d12.WF ∧ (Directed_Graph.add_edge Example.d12 1 2 f32_one).1 = true ∧
    ((2 : Int) ∈ (Graph_Base.getNearNode (Directed_Graph.add_edge Example.d12 1 2 f32_one).2 1).1 ∧
      (∀ c : Int, c ≠ 1 →
        (Graph_Base.getNearNode (Directed_Graph.add_edge Example.d12 1 2 f32_one).2 c).1
          = (Graph_Base.getNearNode Example.d12 c).1) ∧
      ((1 : Int) ∈ (Graph_Base.getNearNode
          (Directed_Graph.add_edge Example.d12 1 2 f32_one).2 2).1 →
        (1 : Int) ∈ (Graph_Base.getNearNode Example.d12 2).1)) ∧
    (Graph_Base.getNearNode Example.d12e 1).1 = {2} ∧
    (Graph_Base.getNearNode Example.d12e 2).1 = ∅ :=
  ⟨by decide, by decide,
   directed_add_edge_one_way Example.d12 1 2 f32_one (by decide) (by decide),
   by decide, by decide⟩

/-- C9: for both kinds of graph, `add_edge(from, to, weight)` returns false
exactly when `from == to` or an endpoint is not in `getAllNodes()`, and a call
that returns false leaves the whole object (for the undirected graph the reverse
table too) as it was. -/
theorem add_edge_false_iff_and_unchanged :
    (∀ (g : Directed_Graph) (a b : Int) (w : Weight),
      ((Directed_Graph.add_edge g a b w).1 = false ↔
        (a = b ∨ a ∉ g.getAllNodes ∨ b ∉ g.getAllNodes)) ∧
      ((Directed_Graph.add_edge g a b w).1 = false → (Directed_Graph.add_edge g a b w).2 = g)) ∧
    (∀ (g : UnDirected_Graph) (a b : Int) (w : Weight),
      ((UnDirected_Graph.add_edge g a b w).1 = false ↔
        (a = b ∨ a ∉ g.getAllNodes ∨ b ∉ g.getAllNodes)) ∧
      ((UnDirected_Graph.add_edge g a b w).1 = false →
        (UnDirected_Graph.add_edge g a b w).2 = g)) := by
  constructor
  · intro g a b w
    unfold Directed_Graph.add_edge
    simp only [mem_getAllNodes]
    by_cases hab : a = b
    · simp [hab]
    · simp only [hab, if_false, false_or]
      split_ifs with h1
      · simp only [true_and, implies_true, and_true]
        simpa [Option.isNone_iff_eq_none, Option.isSome_iff_ne_none] using h1
      · simp only [Bool.true_eq_false, false_iff, false_implies, and_true]
        simpa [Option.isNone_iff_eq_none, Option.isSome_iff_ne_none] using h1
  · intro g a b w
    unfold UnDirected_Graph.add_edge
    simp only [mem_getAllNodes]
    by_cases hab : a = b
    · simp [hab]
    · simp only [hab, if_false, false_or]
      rcases canon_cases a b with ⟨_, hc⟩ | ⟨_, hc⟩
      · rw [hc]
        split_ifs with h1
        · simp only [true_and, implies_true, and_true]
          simpa [Option.isNone_iff_eq_none, Option.isSome_iff_ne_none] using h1
        · simp only [Bool.true_eq_false, false_iff, false_implies, and_true]
          simpa [Option.isNone_iff_eq_none, Option.isSome_iff_ne_none] using h1
      · rw [hc]
        split_ifs with h1
        · simp only [true_and, implies_true, and_true]
          simpa [Option.isNone_iff_eq_none, Option.isSome_iff_ne_none, or_comm] using h1
        · simp only [Bool.true_eq_false, false_iff, false_implies, and_true]
          simpa [Option.isNone_iff_eq_none, Option.isSome_iff_ne_none, or_comm] using h1

/-- C10: the edge `(1, 2)` is already stored (directed and undirected), and
`add_edge(1, 2, w)` returns true all the same, overwriting the stored weight. -/
theorem add_edge_existing_returns_true :
    ((1, 2) ∈ Example.d12e.getAllEdges ∧
      (Directed_Graph.add_edge Example.d12e 1 2 f32_two).1 = true ∧
      (Directed_Graph.add_edge Example.d12e 1 2 f32_two).2.m_edges
        = [(1, [(2, ⟨1, 2, f32_two⟩)]), (2, [])]) ∧
    ((1, 2) ∈ Example.u123e.getAllEdges ∧
      (UnDirected_Graph.add_edge Example.u123e 1 2 f32_one).1 = true ∧
      (UnDirected_Graph.add_edge Example.u123e 2 1 f32_one).1 = true) := by
  decide

/-! ## Claims on `remove_node` and `sizeEdge` -/

/-- C2: in a directed graph (any well-formed state), `remove_node(x)` on a present
node returns true, `x` leaves `getAllNodes()`, every other node stays, and
`getAllEdges()` becomes the previous set without the pairs that have `x` as
`from` or `to`; on an absent `x` it returns false and changes nothing. -/
theorem directed_remove_node_spec (g : Directed_Graph) (x : Int) (hg : g.WF) :
    (x ∈ g.getAllNodes →
      (Directed_Graph.remove_node g x).1 = true ∧
      x ∉ (Directed_Graph.remove_node g x).2.getAllNodes ∧
      (Directed_Graph.remove_node g x).2.getAllEdges
        = g.getAllEdges.filter (fun p => p.1 ≠ x ∧ p.2 ≠ x) ∧
      ∀ y : Int, y ≠ x → y ∈ g.getAllNodes →
        y ∈ (Directed_Graph.remove_node g x).2.getAllNodes) ∧
    (x ∉ g.getAllNodes → Directed_Graph.remove_node g x = (false, g)) := by
  constructor
  · intro hx
    have hx' : (StdMap.find g.m_nodes x).isNone = false := by
      rw [mem_getAllNodes] at hx
      cases h : StdMap.find g.m_nodes x <;> simp_all
    unfold Directed_Graph.remove_node
    simp only [hx', Bool.false_eq_true, if_false, true_and]
    refine ⟨?_, ?_, ?_⟩
    · rw [mem_getAllNodes]
      simp [StdMap.find_erase_self hg.1]
    · rw [getAllEdges_eq, getAllEdges_eq, pairs_remove hg.2, List.toFinset_filter]
      congr 1
      ext p
      simp
    · intro y hy hin
      rw [mem_getAllNodes] at hin ⊢
      simpa [StdMap.find_erase_ne _ _ _ hy] using hin
  · intro hx
    have hx' : (StdMap.find g.m_nodes x).isNone = true := by
      rw [mem_getAllNodes] at hx
      cases h : StdMap.find g.m_nodes x <;> simp_all
    unfold Directed_Graph.remove_node
    simp [hx']

/-- C2 at the cycle `1 → 2 → 3 → 1`: removing node `2` leaves nodes `{1, 3}` and
the single edge `(3, 1)`; removing the absent node `7` changes nothing. -/
theorem directed_remove_node_spec_witness :
    Example.d123c.WF ∧ (2 : Int) ∈ Example.d123c.getAllNodes ∧
    (7 : Int) ∉ Example.d123c.getAllNodes ∧
    ((Directed_Graph.remove_node Example.d123c 2).1 = true ∧
      (2 : Int) ∉ (Directed_Graph.remove_node Example.d123c 2).2.getAllNodes ∧
      (Directed_Graph.remove_node Example.d123c 2).2.getAllEdges
        = Example.d123c.getAllEdges.filter (fun p => p.1 ≠ 2 ∧ p.2 ≠ 2) ∧
      ∀ y : Int, y ≠ 2 → y ∈ Example.d123c.getAllNodes →
        y ∈ (Directed_Graph.remove_node Example.d123c 2).2.getAllNodes) ∧
    Directed_Graph.remove_node Example.d123c 7 = (false, Example.d123c) ∧
    (Directed_Graph.remove_node Example.d123c 2).2.getAllNodes = {1, 3} ∧
    (Directed_Graph.remove_node Example.d123c 2).2.getAllEdges = {(3, 1)} :=
  ⟨by decide, by decide, by decide,
   (directed_remove_node_spec Example.d123c 2 (by decide)).1 (by decide),
   (directed_remove_node_spec Example.d123c 7 (by decide)).2 (by decide),
   by decide, by decide⟩

/-- C6: in every graph reachable from the empty graph by `add_node`,
`remove_node`, `add_edge` and `remove_edge` calls, directed or undirected,
`sizeEdge()` is the number of elements of `getAllEdges()`. -/
theorem sizeEdge_eq_card_getAllEdges :
    (∀ g : Directed_Graph, Directed_Graph.Reachable g → g.sizeEdge = g.getAllEdges.card) ∧
    (∀ g : UnDirected_Graph, UnDirected_Graph.Reachable g →
      g.sizeEdge = g.getAllEdges.card) := by
  constructor
  · intro g hg
    rw [sizeEdge_eq, getAllEdges_eq,
      List.toFinset_card_of_nodup (pairs_nodup (directed_reachable_wf hg).2)]
  · intro g hg
    rw [sizeEdge_eq, getAllEdges_eq,
      List.toFinset_card_of_nodup (pairs_nodup (undirected_reachable_wf hg).1.2)]

/-- C6 at two reachable graphs: the directed cycle `1 → 2 → 3 → 1` has three
edges, and the undirected graph `{1, 2, 3}` with the edge `(1, 2)` still counts
one edge after `remove_node(2)`. -/
theorem sizeEdge_eq_card_getAllEdges_witness :
    Directed_Graph.Reachable Example.d123c ∧
    Example.d123c.sizeEdge = Example.d123c.getAllEdges.card ∧
    Example.d123c.sizeEdge = 3 ∧
    UnDirected_Graph.Reachable (UnDirected_Graph.remove_node Example.u123e 2).2 ∧
    (UnDirected_Graph.remove_node Example.u123e 2).2.sizeEdge
      = (UnDirected_Graph.remove_node Example.u123e 2).2.getAllEdges.card ∧
    (UnDirected_Graph.remove_node Example.u123e 2).2.sizeEdge = 1 :=
  ⟨d123c_reachable,
   sizeEdge_eq_card_getAllEdges.1 _ d123c_reachable,
   by decide,
   UnDirected_Graph.Reachable.remove_node _ 2 u123e_reachable,
   sizeEdge_eq_card_getAllEdges.2 _ (UnDirected_Graph.Reachable.remove_node _ 2 u123e_reachable),
   by decide⟩

/-- C9 at concrete calls: a self-loop and a call with an absent endpoint return
false and change nothing; a call between two present nodes returns true. -/
theorem add_edge_false_iff_and_unchanged_witness :
    (Directed_Graph.add_edge Example.d12 1 1 f32_one).1 = false ∧
    (Directed_Graph.add_edge Example.d12 1 1 f32_one).2 = Example.d12 ∧
    (UnDirected_Graph.add_edge Example.u123 4 1 f32_one).1 = false ∧
    (UnDirected_Graph.add_edge Example.u123 4 1 f32_one).2 = Example.u123 ∧
    (UnDirected_Graph.add_edge Example.u123 2 1 f32_one).1 ≠ false :=
  ⟨((add_edge_false_iff_and_unchanged.1 Example.d12 1 1 f32_one).1).2 (Or.inl rfl),
   (add_edge_false_iff_and_unchanged.1 Example.d12 1 1 f32_one).2 (by decide),
   ((add_edge_false_iff_and_unchanged.2 Example.u123 4 1 f32_one).1).2
     (Or.inr (Or.inl (by decide))),
   (add_edge_false_iff_and_unchanged.2 Example.u123 4 1 f32_one).2 (by decide),
   fun h => by
     have := ((add_edge_false_iff_and_unchanged.2 Example.u123 2 1 f32_one).1).1 h
     revert this; decide⟩

/-! ## Where the code departs from the claims -/

/-- C1: on the reachable undirected graph with nodes `{1, 2, 3}` and the edge
`(1, 2)`, `remove_node(2)` returns true and `2` leaves `getAllNodes()`, but the
pair `(1, 2)` stays in `getAllEdges()` and `2` stays in `getNearNode(1)`;
`remove_node(1)` leaves `1` in `getNearNode(2)` through the reverse table. -/
theorem undirected_remove_node_keeps_incident_edges :
    UnDirected_Graph.Reachable Example.u123e ∧
    (2 : Int) ∈ Example.u123e.getAllNodes ∧
    (UnDirected_Graph.remove_node Example.u123e 2).1 = true ∧
    (2 : Int) ∉ (UnDirected_Graph.remove_node Example.u123e 2).2.getAllNodes ∧
    (UnDirected_Graph.remove_node Example.u123e 2).2.getAllEdges = {(1, 2)} ∧
    (UnDirected_Graph.getNearNode (UnDirected_Graph.remove_node Example.u123e 2).2 1).1 = {2} ∧
    (UnDirected_Graph.remove_node Example.u123e 1).1 = true ∧
    (UnDirected_Graph.remove_node Example.u123e 1).2.getAllNodes = {2, 3} ∧
    (UnDirected_Graph.remove_node Example.u123e 1).2.sizeEdge = 0 ∧
    (UnDirected_Graph.getNearNode (UnDirected_Graph.remove_node Example.u123e 1).2 2).1 = {1} :=
  ⟨u123e_reachable, by decide, by decide, by decide, by decide, by decide, by decide, by decide,
   by decide, by decide⟩

/-- C3: the graph `getSubGraph(ids)` returns is the copy made on entry, for every
graph and every `ids`; with nodes `{1, 2}`, the edge `(1, 2)` and `ids = {1}` it
still holds node `2` and the edge `(1, 2)`. -/
theorem getSubGraph_returns_unpruned_copy :
    (∀ (g : Directed_Graph) (ids : Finset Int), (Directed_Graph.getSubGraph g ids).1 = g) ∧
    (∀ (g : UnDirected_Graph) (ids : Finset Int), (UnDirected_Graph.getSubGraph g ids).1 = g) ∧
    (Directed_Graph.getSubGraph Example.d12e {1}).1.getAllNodes = {1, 2} ∧
    (Directed_Graph.getSubGraph Example.d12e {1}).1.getAllEdges = {(1, 2)} ∧
    (UnDirected_Graph.getSubGraph Example.u123e {1}).1.getAllNodes = {1, 2, 3} ∧
    (UnDirected_Graph.getSubGraph Example.u123e {1}).1.getAllEdges = {(1, 2)} :=
  ⟨fun _ _ => rfl, fun _ _ => rfl, by decide, by decide, by decide, by decide⟩

/-- C4: with nodes `{1, 2}`, the edge `(1, 2)` and `ids = {1}`, the receiver of
`getSubGraph(ids)` loses node `2` and its edge; the undirected receiver with
nodes `{1, 2, 3}` is left with node `1` only. -/
theorem getSubGraph_prunes_receiver :
    Example.d12e.getAllNodes = {1, 2} ∧ Example.d12e.getAllEdges = {(1, 2)} ∧
    (Directed_Graph.getSubGraph Example.d12e {1}).2.getAllNodes = {1} ∧
    (Directed_Graph.getSubGraph Example.d12e {1}).2.getAllEdges = ∅ ∧
    Example.u123e.getAllNodes = {1, 2, 3} ∧
    (UnDirected_Graph.getSubGraph Example.u123e {1}).2.getAllNodes = {1} := by
  decide

/-- C5: on the reachable graph with the single node `1` (no edge, so
`sizeEdge() = 0`), `edges().begin()` compares unequal to `edges().end()` while
its inner cursor is at the end of the empty row of node `1`: the loop enters its
body and dereferences that cursor instead of yielding nothing. -/
theorem edge_iteration_enters_empty_first_row :
    UnDirected_Graph.Reachable Example.u1 ∧
    Example.u1.sizeEdge = 0 ∧ Example.u1.getAllEdges = ∅ ∧
    EdgeIterator.beginIterator Example.u1.toGraph_Base
      = { m_iterEdges := Cursor.entry 1, m_iterNearEdges := NearCursor.past_end 1 } ∧
    EdgeIterator.ne (EdgeIterator.beginIterator Example.u1.toGraph_Base)
      (EdgeIterator.endIterator Example.u1.toGraph_Base) = true ∧
    EdgeIterator.deref Example.u1.toGraph_Base
      (EdgeIterator.beginIterator Example.u1.toGraph_Base) = none ∧
    ∀ fuel : Nat, Example.u1.forEdges (fuel + 1) = Outcome.undefined_behaviour :=
  ⟨u1_reachable, by decide, by decide, by decide, by decide, by decide, fun _ => rfl⟩

/-! ## The key sets of the tables -/

theorem keys_assign_emplace {V W : Type} (m : StdMap V) (m' : StdMap W)
    (h : StdMap.keys m = StdMap.keys m') (k : Int) (v : V) (w : W) :
    StdMap.keys (StdMap.assign m k v) = StdMap.keys (StdMap.emplace m' k w) := by
  induction m generalizing m' with
  | nil =>
    cases m' with
    | nil => rfl
    | cons hd t => simp [StdMap.keys] at h
  | cons hd t ih =>
    cases m' with
    | nil => simp [StdMap.keys] at h
    | cons hd' t' =>
      obtain ⟨k1, v1⟩ := hd
      obtain ⟨k2, v2⟩ := hd'
      simp only [StdMap.keys, List.map_cons, List.cons.injEq] at h
      obtain ⟨h1, h2⟩ := h
      subst h1
      simp only [StdMap.assign, StdMap.emplace]
      split_ifs with h3 h4
      · simp [StdMap.keys, h2]
      · simp [StdMap.keys, h2, h4]
      · have := ih t' h2
        simp only [StdMap.keys, List.map_cons] at this ⊢
        rw [this]

theorem keys_erase_congr {V W : Type} (m : StdMap V) (m' : StdMap W)
    (h : StdMap.keys m = StdMap.keys m') (k : Int) :
    StdMap.keys (StdMap.erase m k) = StdMap.keys (StdMap.erase m' k) := by
  induction m generalizing m' with
  | nil =>
    cases m' with
    | nil => rfl
    | cons hd t => simp [StdMap.keys] at h
  | cons hd t ih =>
    cases m' with
    | nil => simp [StdMap.keys] at h
    | cons hd' t' =>
      obtain ⟨k1, v1⟩ := hd
      obtain ⟨k2, v2⟩ := hd'
      simp only [StdMap.keys, List.map_cons, List.cons.injEq] at h
      obtain ⟨h1, h2⟩ := h
      subst h1
      simp only [StdMap.erase]
      split_ifs with h3
      · exact h2
      · have := ih t' h2
        simp only [StdMap.keys, List.map_cons] at this ⊢
        rw [this]

theorem keys_prune (t : EdgeTable) (id : Int) :
    StdMap.keys (t.map (fun edge =>
      (edge.1, if (StdMap.find edge.2 id).isSome then StdMap.erase edge.2 id else edge.2)))
      = StdMap.keys t := by
  unfold StdMap.keys
  rw [List.map_map]; rfl

/-- Indexing a row that exists leaves the table as it is. -/
theorem emplace_of_mem_keys {t : EdgeTable} (ht : StdMap.Ordered t) {a : Int}
    (ha : a ∈ StdMap.keys t) : StdMap.emplace t a [] = t :=
  StdMap.emplace_of_find ht a [] ((StdMap.find_isSome_iff t a).2 ha)

theorem keys_store {t : EdgeTable} (ht : StdMap.Ordered t) {a : Int} (ha : a ∈ StdMap.keys t)
    (b : Int) (e : Graph_Edge) : StdMap.keys (Graph_Base.store t a b e) = StdMap.keys t := by
  unfold Graph_Base.store
  rw [StdMap.keys_modify, emplace_of_mem_keys ht ha]

theorem keys_drop {t : EdgeTable} (ht : StdMap.Ordered t) {a : Int} (ha : a ∈ StdMap.keys t)
    (b : Int) : StdMap.keys (Graph_Base.drop t a b) = StdMap.keys t := by
  unfold Graph_Base.drop
  rw [StdMap.keys_modify, emplace_of_mem_keys ht ha]

theorem isNone_eq_false_iff_mem_keys {V : Type} (m : StdMap V) (k : Int) :
    (StdMap.find m k).isNone = false ↔ k ∈ StdMap.keys m := by
  rw [← StdMap.find_isSome_iff]
  cases StdMap.find m k <;> simp

theorem mem_getAllNodes_iff_keys (g : Graph_Base) (x : Int) :
    x ∈ g.getAllNodes ↔ x ∈ StdMap.keys g.m_nodes := by
  rw [getAllNodes_eq, List.mem_toFinset]

/-- In a directed graph built by the four mutators the node table and the
forward table have the same keys. -/
theorem directed_reachable_keys {g : Directed_Graph} (h : Directed_Graph.Reachable g) :
    KeysAgree g.m_nodes g.m_edges := by
  induction h with
  | empty => rfl
  | add_node g id _ ih =>
    unfold Directed_Graph.add_node
    split_ifs
    · exact ih
    · exact keys_assign_emplace _ _ ih id _ _
  | remove_node g id _ ih =>
    unfold Directed_Graph.remove_node
    split_ifs
    · exact ih
    · unfold KeysAgree
      rw [keys_prune]
      exact keys_erase_congr _ _ ih id
  | add_edge g a b w hr ih =>
    have hwf := directed_reachable_wf hr
    unfold Directed_Graph.add_edge
    split_ifs with h1 h2
    · exact ih
    · exact ih
    · unfold KeysAgree at ih ⊢
      simp only [Bool.or_eq_true, not_or, Bool.not_eq_true] at h2
      have ha : a ∈ StdMap.keys g.m_edges := ih ▸ (isNone_eq_false_iff_mem_keys _ _).1 h2.1
      simp only
      rw [keys_store hwf.2.1 ha]; exact ih
  | remove_edge g a b hr ih =>
    have hwf := directed_reachable_wf hr
    unfold Directed_Graph.remove_edge
    split_ifs with h1 h2
    · exact ih
    · unfold KeysAgree at ih ⊢
      simp only [Bool.or_eq_true, not_or, Bool.not_eq_true] at h1
      have ha : a ∈ StdMap.keys g.m_edges := ih ▸ (isNone_eq_false_iff_mem_keys _ _).1 h1.1
      simp only
      rw [emplace_of_mem_keys hwf.2.1 ha]; exact ih
    · unfold KeysAgree at ih ⊢
      simp only [Bool.or_eq_true, not_or, Bool.not_eq_true] at h1
      have ha : a ∈ StdMap.keys g.m_edges := ih ▸ (isNone_eq_false_iff_mem_keys _ _).1 h1.1
      simp only
      rw [keys_drop hwf.2.1 ha]; exact ih

theorem undirected_add_edge_keys {g : UnDirected_Graph} (hwf : g.WF)
    (ih : KeysAgree g.m_nodes g.m_edges ∧ KeysAgree g.m_nodes g.m_edges_inv)
    (a b : Int) (w : Weight) :
    KeysAgree (UnDirected_Graph.add_edge g a b w).2.m_nodes
        (UnDirected_Graph.add_edge g a b w).2.m_edges ∧
      KeysAgree (UnDirected_Graph.add_edge g a b w).2.m_nodes
        (UnDirected_Graph.add_edge g a b w).2.m_edges_inv := by
  unfold UnDirected_Graph.add_edge
  split_ifs with h1
  · exact ih
  · simp only
    split_ifs with h2
    · exact ih
    · unfold KeysAgree at ih ⊢
      simp only [Bool.or_eq_true, not_or, Bool.not_eq_true] at h2
      have ha : (UnDirected_Graph.canon a b).1 ∈ StdMap.keys g.m_edges :=
        ih.1 ▸ (isNone_eq_false_iff_mem_keys _ _).1 h2.1
      have hb : (UnDirected_Graph.canon a b).2 ∈ StdMap.keys g.m_edges_inv :=
        ih.2 ▸ (isNone_eq_false_iff_mem_keys _ _).1 h2.2
      simp only
      rw [keys_store hwf.1.2.1 ha, keys_store hwf.2.1 hb]; exact ih

theorem undirected_remove_edge_keys {g : UnDirected_Graph} (hwf : g.WF)
    (ih : KeysAgree g.m_nodes g.m_edges ∧ KeysAgree g.m_nodes g.m_edges_inv) (a b : Int) :
    KeysAgree (UnDirected_Graph.remove_edge g a b).2.m_nodes
        (UnDirected_Graph.remove_edge g a b).2.m_edges ∧
      KeysAgree (UnDirected_Graph.remove_edge g a b).2.m_nodes
        (UnDirected_Graph.remove_edge g a b).2.m_edges_inv := by
  unfold UnDirected_Graph.remove_edge
  simp only
  split_ifs with h1 h2
  · exact ih
  · unfold KeysAgree at ih ⊢
    simp only [Bool.or_eq_true, not_or, Bool.not_eq_true] at h1
    have ha : (UnDirected_Graph.canon a b).1 ∈ StdMap.keys g.m_edges :=
      ih.1 ▸ (isNone_eq_false_iff_mem_keys _ _).1 h1.1
    simp only
    rw [emplace_of_mem_keys hwf.1.2.1 ha]; exact ih
  · unfold KeysAgree at ih ⊢
    simp only [Bool.or_eq_true, not_or, Bool.not_eq_true] at h1
    have ha : (UnDirected_Graph.canon a b).1 ∈ StdMap.keys g.m_edges :=
      ih.1 ▸ (isNone_eq_false_iff_mem_keys _ _).1 h1.1
    have hb : (UnDirected_Graph.canon a b).2 ∈ StdMap.keys g.m_edges_inv :=
      ih.2 ▸ (isNone_eq_false_iff_mem_keys _ _).1 h1.2
    simp only
    rw [keys_drop hwf.1.2.1 ha, keys_drop hwf.2.1 hb]; exact ih

/-- In an undirected graph built by the four mutators the node table, the
forward table and the reverse table have the same keys. -/
theorem undirected_reachable_keys {g : UnDirected_Graph} (h : UnDirected_Graph.Reachable g) :
    KeysAgree g.m_nodes g.m_edges ∧ KeysAgree g.m_nodes g.m_edges_inv := by
  induction h with
  | empty => exact ⟨rfl, rfl⟩
  | add_node g id _ ih =>
    unfold UnDirected_Graph.add_node
    split_ifs
    · exact ih
    · exact ⟨keys_assign_emplace _ _ ih.1 id _ _, keys_assign_emplace _ _ ih.2 id _ _⟩
  | remove_node g id hr ih =>
    have hwf := undirected_reachable_wf hr
    by_cases hid : (StdMap.find g.m_nodes id).isSome
    · rw [undirected_remove_node_eq g id hwf.1.1 hid]
      exact ⟨keys_erase_congr _ _ ih.1 id, keys_erase_congr _ _ ih.2 id⟩
    · unfold UnDirected_Graph.remove_node
      have : (StdMap.find g.m_nodes id).isNone = true := by
        cases hf : StdMap.find g.m_nodes id <;> simp_all
      simp only [this, if_true]
      exact ih
  | add_edge g a b w hr ih => exact undirected_add_edge_keys (undirected_reachable_wf hr) ih a b w
  | remove_edge g a b hr ih => exact undirected_remove_edge_keys (undirected_reachable_wf hr) ih a b

/-! ## Facts about `remove_edge` -/

theorem sizeEdge_eq_card {t : EdgeTable} (ht : EdgeTable.WF t) :
    (EdgeTable.pairs t).length = (EdgeTable.pairs t).toFinset.card :=
  (List.toFinset_card_of_nodup (pairs_nodup ht)).symm

theorem pairs_emplace_nil (t : EdgeTable) (a : Int) :
    EdgeTable.pairs (StdMap.emplace t a []) = EdgeTable.pairs t := by
  induction t with
  | nil => simp [StdMap.emplace, EdgeTable.pairs]
  | cons r t ih =>
    obtain ⟨k, row⟩ := r
    simp only [StdMap.emplace]
    split_ifs with h1 h2
    · rw [pairs_cons]; simp
    · rfl
    · rw [pairs_cons, pairs_cons, ih]

/-- The pairs of a table whose row keys are all above `a` do not start with `a`. -/
theorem filter_pairs_above {t : EdgeTable} {a : Int} (h : ∀ r ∈ t, a < r.1) (b : Int) :
    (EdgeTable.pairs t).filter (fun p => decide (p ≠ (a, b))) = EdgeTable.pairs t := by
  rw [List.filter_eq_self]
  intro p hp
  obtain ⟨r, hr, e, _, rfl⟩ := mem_pairs.1 hp
  have := h r hr
  simp only [ne_eq, decide_eq_true_eq, Prod.mk.injEq, not_and]
  intro h1; omega

theorem pairs_modify_erase {t : EdgeTable} (ht : EdgeTable.WF t) (a b : Int) :
    EdgeTable.pairs (StdMap.modify t a (fun row => StdMap.erase row b))
      = (EdgeTable.pairs t).filter (fun p => decide (p ≠ (a, b))) := by
  induction t with
  | nil => rfl
  | cons r t ih =>
    obtain ⟨k, row⟩ := r
    obtain ⟨hlt, hrow, htl⟩ := wf_cons ht
    simp only [StdMap.modify]
    split_ifs with hk
    · subst hk
      rw [pairs_cons, pairs_cons, List.filter_append, filter_pairs_above hlt b]
      congr 1
      simp only
      rw [StdMap.erase_eq_filter hrow.1, List.filter_map, List.filter_congr]
      intro e he
      have := (hrow.2 e he).2
      simp [this]
    · rw [pairs_cons, pairs_cons, List.filter_append, ih htl]
      congr 1
      simp only
      rw [eq_comm, List.filter_eq_self]
      intro p hp
      obtain ⟨e, _, rfl⟩ := List.mem_map.1 hp
      simp [hk]

/-- The pairs left by `t[a].erase(b)`. -/
theorem pairs_drop {t : EdgeTable} (ht : EdgeTable.WF t) (a b : Int) :
    EdgeTable.pairs (Graph_Base.drop t a b)
      = (EdgeTable.pairs t).filter (fun p => decide (p ≠ (a, b))) := by
  unfold Graph_Base.drop
  rw [pairs_modify_erase (wf_emplace_nil ht a), pairs_emplace_nil]

/-- The pair `(a, b)` is stored exactly when the row under `a` holds the key `b`. -/
theorem mem_pairs_iff_find {t : EdgeTable} (ht : EdgeTable.WF t) (a b : Int) :
    (a, b) ∈ EdgeTable.pairs t ↔ (StdMap.find (Graph_Base.rowAt t a) b).isSome := by
  rw [rowAt_eq ht.1]
  constructor
  · intro h
    obtain ⟨r, hr, e, he, heq⟩ := mem_pairs.1 h
    obtain ⟨k, row⟩ := r
    obtain ⟨b', edge⟩ := e
    have hrow := ((wf_iff t).1 ht).2 (k, row) hr
    have h1 : k = a := (Prod.mk.inj heq).1
    have h2 : edge.to_ = b := (Prod.mk.inj heq).2
    have h3 : edge.to_ = b' := (hrow.2 (b', edge) he).2
    subst h1
    have h4 : b' = b := by omega
    subst h4
    rw [StdMap.find_of_mem ht.1 hr]
    simp only [Option.getD_some]
    rw [StdMap.find_of_mem hrow.1 he]; rfl
  · intro h
    cases hf : StdMap.find t a with
    | none => rw [hf] at h; simp [StdMap.find] at h
    | some row =>
      rw [hf] at h
      simp only [Option.getD_some] at h
      cases hg : StdMap.find row b with
      | none => rw [hg] at h; simp at h
      | some edge =>
        have hr := StdMap.mem_of_find hf
        have he := StdMap.mem_of_find hg
        have hrow := ((wf_iff t).1 ht).2 (a, row) hr
        exact mem_pairs.2 ⟨(a, row), hr, (b, edge), he, by rw [(hrow.2 (b, edge) he).2]⟩

/-- The edge set and the edge count after a successful `t[a].erase(b)`. -/
theorem drop_spec {t : EdgeTable} (ht : EdgeTable.WF t) (a b : Int)
    (h : (a, b) ∈ EdgeTable.pairs t) :
    (EdgeTable.pairs (Graph_Base.drop t a b)).toFinset = (EdgeTable.pairs t).toFinset.erase (a, b) ∧
    (EdgeTable.pairs (Graph_Base.drop t a b)).length + 1 = (EdgeTable.pairs t).length := by
  have h1 : (EdgeTable.pairs (Graph_Base.drop t a b)).toFinset
      = (EdgeTable.pairs t).toFinset.erase (a, b) := by
    rw [pairs_drop ht]
    ext p
    simp only [List.mem_toFinset, List.mem_filter, Finset.mem_erase, decide_eq_true_eq]
    tauto
  refine ⟨h1, ?_⟩
  rw [sizeEdge_eq_card (wf_drop ht a b), sizeEdge_eq_card ht, h1]
  exact Finset.card_erase_add_one (List.mem_toFinset.2 h)

/-- `Directed_Graph::remove_edge` in a state where every node has its row. -/
theorem directed_remove_edge_cases (g : Directed_Graph) (hwf : g.WF)
    (hk : KeysAgree g.m_nodes g.m_edges) (a b : Int) :
    ((a ∈ g.getAllNodes ∧ b ∈ g.getAllNodes ∧ (a, b) ∈ g.getAllEdges) →
      Directed_Graph.remove_edge g a b
        = (true, { g with m_edges := Graph_Base.drop g.m_edges a b })) ∧
    (¬ (a ∈ g.getAllNodes ∧ b ∈ g.getAllNodes ∧ (a, b) ∈ g.getAllEdges) →
      Directed_Graph.remove_edge g a b = (false, g)) := by
  simp only [mem_getAllNodes_iff_keys, getAllEdges_eq, List.mem_toFinset,
    mem_pairs_iff_find hwf.2, ← isNone_eq_false_iff_mem_keys]
  unfold Directed_Graph.remove_edge
  by_cases h1 : (StdMap.find g.m_nodes a).isNone = true
  · simp [h1]
  · by_cases h2 : (StdMap.find g.m_nodes b).isNone = true
    · simp [h2]
    · simp only [Bool.not_eq_true] at h1 h2
      have ha : a ∈ StdMap.keys g.m_edges := hk ▸ (isNone_eq_false_iff_mem_keys _ _).1 h1
      cases h3 : StdMap.find (Graph_Base.rowAt g.m_edges a) b with
      | none => simp [h1, h2, h3, emplace_of_mem_keys hwf.2.1 ha]
      | some e => simp [h1, h2, h3]

/-- `UnDirected_Graph::remove_edge` in a state where every node has its rows;
`(lo, hi)` is the pair after the swap. -/
theorem undirected_remove_edge_core (g : UnDirected_Graph) (hwf : g.WF)
    (hk : KeysAgree g.m_nodes g.m_edges) (a b lo hi : Int)
    (hc : UnDirected_Graph.canon a b = (lo, hi)) :
    ((lo ∈ g.getAllNodes ∧ hi ∈ g.getAllNodes ∧ (lo, hi) ∈ g.getAllEdges) →
      UnDirected_Graph.remove_edge g a b
        = (true, { g with
            m_edges := Graph_Base.drop g.m_edges lo hi,
            m_edges_inv := Graph_Base.drop g.m_edges_inv hi lo })) ∧
    (¬ (lo ∈ g.getAllNodes ∧ hi ∈ g.getAllNodes ∧ (lo, hi) ∈ g.getAllEdges) →
      UnDirected_Graph.remove_edge g a b = (false, g)) := by
  simp only [mem_getAllNodes_iff_keys, getAllEdges_eq, List.mem_toFinset,
    mem_pairs_iff_find hwf.1.2, ← isNone_eq_false_iff_mem_keys]
  unfold UnDirected_Graph.remove_edge
  rw [hc]
  simp only
  by_cases h1 : (StdMap.find g.m_nodes lo).isNone = true
  · simp [h1]
  · by_cases h2 : (StdMap.find g.m_nodes hi).isNone = true
    · simp [h2]
    · simp only [Bool.not_eq_true] at h1 h2
      have ha : lo ∈ StdMap.keys g.m_edges := hk ▸ (isNone_eq_false_iff_mem_keys _ _).1 h1
      cases h3 : StdMap.find (Graph_Base.rowAt g.m_edges lo) hi with
      | none => simp [h1, h2, h3, emplace_of_mem_keys hwf.1.2.1 ha]
      | some e => simp [h1, h2, h3]

/-! ## Facts about `add_node` -/

/-- The node ids after `m_nodes[id] = Graph_Node(id)`. -/
theorem getAllNodes_assign (nodes : StdMap Graph_Node) (t : EdgeTable) (id : Int)
    (n : Graph_Node) :
    Graph_Base.getAllNodes { m_nodes := StdMap.assign nodes id n, m_edges := t }
      = insert id (Graph_Base.getAllNodes { m_nodes := nodes, m_edges := t }) := by
  ext x
  rw [Finset.mem_insert, mem_getAllNodes, mem_getAllNodes]
  by_cases hx : x = id
  · subst hx; simp [StdMap.find_assign_self]
  · simp [StdMap.find_assign_ne _ _ _ _ hx, hx]

/-- An empty row adds no edge. -/
theorem getAllEdges_emplace_nil (nodes nodes' : StdMap Graph_Node) (t : EdgeTable) (id : Int) :
    Graph_Base.getAllEdges { m_nodes := nodes', m_edges := StdMap.emplace t id [] }
      = Graph_Base.getAllEdges { m_nodes := nodes, m_edges := t } := by
  rw [getAllEdges_eq, getAllEdges_eq, pairs_emplace_nil]

theorem isSome_eq_false_iff_not_mem (g : Graph_Base) (x : Int) :
    (StdMap.find g.m_nodes x).isSome = false ↔ x ∉ g.getAllNodes := by
  rw [mem_getAllNodes]; simp

/-! ## Facts about `NodeIterator` -/

/-- In an ordered map, the entry under `k` is found, and the cursor step from it
leads to the entries behind it. -/
theorem find_after_append {V : Type} (p s : StdMap V) (k : Int) (v : V)
    (h : StdMap.Ordered (p ++ (k, v) :: s)) :
    StdMap.find (p ++ (k, v) :: s) k = some v ∧ StdMap.after (p ++ (k, v) :: s) k = some s := by
  induction p with
  | nil => simp [StdMap.find, StdMap.after]
  | cons hd p ih =>
    obtain ⟨k', v'⟩ := hd
    have h0 := (StdMap.ordered_cons k' v' (p ++ (k, v) :: s)).1 h
    have hlt : k' < k := h0.1 (k, v) (by simp)
    have hne : k' ≠ k := by omega
    simp only [List.cons_append, StdMap.find, StdMap.after, hne, if_false]
    exact ih h0.2

/-- The node loop, started on any suffix of the node table, delivers that suffix. -/
theorem nodeIterator_run_suffix (g : Graph_Base) (hg : StdMap.Ordered g.m_nodes)
    (s : StdMap Graph_Node) :
    ∀ (p : StdMap Graph_Node) (seen : List Graph_Node) (fuel : Nat),
      g.m_nodes = p ++ s → s.length < fuel →
      NodeIterator.run g fuel { m_iter := Cursor.first s } seen
        = Outcome.done (seen ++ s.map Prod.snd) := by
  induction s with
  | nil =>
    intro p seen fuel _ hf
    cases fuel with
    | zero => simp at hf
    | succ f => simp [NodeIterator.run, NodeIterator.ne, NodeIterator.endIterator, Cursor.first]
  | cons hd s ih =>
    intro p seen fuel hp hf
    obtain ⟨k, v⟩ := hd
    cases fuel with
    | zero => simp at hf
    | succ f =>
      have hord : StdMap.Ordered (p ++ (k, v) :: s) := hp ▸ hg
      obtain ⟨h1, h2⟩ := find_after_append p s k v hord
      have hrec := ih (p ++ [(k, v)]) (seen ++ [v]) f (by simp [hp])
        (by simp only [List.length_cons] at hf; omega)
      simp only [NodeIterator.run, NodeIterator.ne, NodeIterator.endIterator, Cursor.first,
        NodeIterator.deref, NodeIterator.next, hp, h1, h2, Option.map_some']
      simp only [hp] at hrec
      simpa using hrec

theorem directed_reachable_nodes {g : Directed_Graph} (h : Directed_Graph.Reachable g) :
    NodesOK g.m_nodes := by
  induction h with
  | empty => intro n hn; simp [Graph_Base.empty] at hn
  | add_node g id _ ih =>
    unfold Directed_Graph.add_node
    split_ifs
    · exact ih
    · intro n hn
      rcases StdMap.mem_assign hn with hn | hn
      · exact ih n hn
      · subst hn; rfl
  | remove_node g id _ ih =>
    unfold Directed_Graph.remove_node
    split_ifs
    · exact ih
    · exact fun n hn => ih n (StdMap.mem_erase hn)
  | add_edge g a b w _ ih =>
    unfold Directed_Graph.add_edge
    split_ifs <;> exact ih
  | remove_edge g a b _ ih =>
    unfold Directed_Graph.remove_edge
    split_ifs <;> exact ih

theorem undirected_reachable_nodes {g : UnDirected_Graph} (h : UnDirected_Graph.Reachable g) :
    NodesOK g.m_nodes := by
  induction h with
  | empty => intro n hn; simp [UnDirected_Graph.empty] at hn
  | add_node g id _ ih =>
    unfold UnDirected_Graph.add_node
    split_ifs
    · exact ih
    · intro n hn
      rcases StdMap.mem_assign hn with hn | hn
      · exact ih n hn
      · subst hn; rfl
  | remove_node g id hr ih =>
    by_cases hid : (StdMap.find g.m_nodes id).isSome
    · rw [undirected_remove_node_eq g id (undirected_reachable_wf hr).1.1 hid]
      exact fun n hn => ih n (StdMap.mem_erase hn)
    · unfold UnDirected_Graph.remove_node
      have : (StdMap.find g.m_nodes id).isNone = true := by
        cases hf : StdMap.find g.m_nodes id <;> simp_all
      simp only [this, if_true]
      exact ih
  | add_edge g a b w _ ih =>
    unfold UnDirected_Graph.add_edge
    split_ifs
    · exact ih
    · simp only
      split_ifs <;> exact ih
  | remove_edge g a b _ ih =>
    unfold UnDirected_Graph.remove_edge
    simp only
    split_ifs <;> exact ih

/-- The node loop over a well-formed node table whose nodes sit under their own id. -/
theorem forNodes_spec (g : Graph_Base) (hord : StdMap.Ordered g.m_nodes)
    (hids : NodesOK g.m_nodes) :
    (∀ fuel : Nat, g.sizeNode < fuel →
      g.forNodes fuel = Outcome.done (g.m_nodes.map Prod.snd)) ∧
    (g.m_nodes.map Prod.snd).length = g.sizeNode ∧
    ((g.m_nodes.map Prod.snd).map (fun n => n.id)).Nodup ∧
    ((g.m_nodes.map Prod.snd).map (fun n => n.id)).toFinset = g.getAllNodes := by
  have hkeys : (g.m_nodes.map Prod.snd).map (fun n => n.id) = StdMap.keys g.m_nodes := by
    unfold StdMap.keys
    rw [List.map_map]
    exact List.map_congr_left (fun n hn => hids n hn)
  refine ⟨?_, by simp [Graph_Base.sizeNode], ?_, ?_⟩
  · intro fuel hf
    have := nodeIterator_run_suffix g hord g.m_nodes [] [] fuel rfl hf
    simpa [Graph_Base.forNodes, NodeIterator.beginIterator] using this
  · rw [hkeys]
    exact (List.Pairwise.imp (fun h => ne_of_lt h) hord : List.Pairwise (· ≠ ·) _)
  · rw [hkeys, getAllNodes_eq]

/-! ## Facts about the neighbour queries -/

theorem getNearEdges_eq (g : Graph_Base) (id : Int) :
    (g.getNearEdges id).1
      = ((Graph_Base.rowAt g.m_edges id).map (fun edge => (id, edge.2.to_))).toFinset := by
  unfold Graph_Base.getNearEdges
  simp only
  rw [foldl_insert_eq (fun edge : Int × Graph_Edge => (id, edge.2.to_))]; simp

theorem undirected_getNearEdges_eq (g : UnDirected_Graph) (id : Int) :
    (g.getNearEdges id).1
      = ((Graph_Base.rowAt g.m_edges id).map (fun edge => (id, edge.2.to_))).toFinset ∪
        ((Graph_Base.rowAt g.m_edges_inv id).map
          (fun edge => (edge.2.from_, edge.2.to_))).toFinset := by
  unfold UnDirected_Graph.getNearEdges
  simp only
  rw [foldl_insert_eq (fun edge : Int × Graph_Edge => (edge.2.from_, edge.2.to_)),
    getNearEdges_eq]

/-- The row read by `t[id]` is a well-formed row of `id`. -/
theorem rowAt_rowOK {t : EdgeTable} (ht : EdgeTable.WF t) (id : Int) :
    RowOK id (Graph_Base.rowAt t id) := by
  rw [rowAt_eq ht.1]
  cases hf : StdMap.find t id with
  | none => exact rowOK_nil id
  | some row => exact ((wf_iff t).1 ht).2 (id, row) (StdMap.mem_of_find hf)

/-- No row under `id`: `t[id]` reads the fresh empty row. -/
theorem rowAt_of_not_mem_keys {t : EdgeTable} (ht : StdMap.Ordered t) {id : Int}
    (h : id ∉ StdMap.keys t) : Graph_Base.rowAt t id = [] := by
  rw [rowAt_eq ht]
  have : StdMap.find t id = none := by
    cases hf : StdMap.find t id with
    | none => rfl
    | some row =>
      exact absurd ((StdMap.find_isSome_iff t id).1 (by rw [hf]; rfl)) h
  rw [this]; rfl

/-! ## Canonical orientation of the forward table -/

theorem canonical_emplace_nil {t : EdgeTable} (ht : EdgeTable.Canonical t) (a : Int) :
    EdgeTable.Canonical (StdMap.emplace t a []) := by
  intro r hr
  rcases StdMap.mem_emplace hr with hr | hr
  · exact ht r hr
  · subst hr; intro e he; simp at he

theorem canonical_modify {t : EdgeTable} (ht : EdgeTable.Canonical t) (a : Int)
    (f : StdMap Graph_Edge → StdMap Graph_Edge)
    (hf : ∀ row : StdMap Graph_Edge, (∀ e ∈ row, a < e.1) → ∀ e ∈ f row, a < e.1) :
    EdgeTable.Canonical (StdMap.modify t a f) := by
  intro r hr
  rcases StdMap.mem_modify hr with hr | ⟨v, hv, hr⟩
  · exact ht r hr
  · subst hr; exact hf v (ht (a, v) hv)

theorem canonical_store {t : EdgeTable} (ht : EdgeTable.Canonical t) {a b : Int} (hab : a < b)
    (e : Graph_Edge) : EdgeTable.Canonical (Graph_Base.store t a b e) := by
  refine canonical_modify (canonical_emplace_nil ht a) a _ ?_
  intro row hrow x hx
  rcases StdMap.mem_assign hx with hx | hx
  · exact hrow x hx
  · subst hx; exact hab

theorem canonical_drop {t : EdgeTable} (ht : EdgeTable.Canonical t) (a b : Int) :
    EdgeTable.Canonical (Graph_Base.drop t a b) :=
  canonical_modify (canonical_emplace_nil ht a) a _
    (fun _ hrow x hx => hrow x (StdMap.mem_erase hx))

theorem canon_lt {a b : Int} (h : a ≠ b) :
    (UnDirected_Graph.canon a b).1 < (UnDirected_Graph.canon a b).2 := by
  rcases canon_cases a b with ⟨h1, hc⟩ | ⟨h1, hc⟩
  · rw [hc]; simp only; omega
  · rw [hc]; exact h1

/-- In an undirected graph built by the four mutators every forward entry sits
at `[a][b]` with `a < b`. -/
theorem undirected_reachable_canonical {g : UnDirected_Graph}
    (h : UnDirected_Graph.Reachable g) : EdgeTable.Canonical g.m_edges := by
  induction h with
  | empty => intro r hr; simp [UnDirected_Graph.empty] at hr
  | add_node g id _ ih =>
    unfold UnDirected_Graph.add_node
    split_ifs
    · exact ih
    · exact canonical_emplace_nil ih id
  | remove_node g id hr ih =>
    by_cases hid : (StdMap.find g.m_nodes id).isSome
    · rw [undirected_remove_node_eq g id (undirected_reachable_wf hr).1.1 hid]
      exact fun r hr' => ih r (StdMap.mem_erase hr')
    · unfold UnDirected_Graph.remove_node
      have : (StdMap.find g.m_nodes id).isNone = true := by
        cases hf : StdMap.find g.m_nodes id <;> simp_all
      simp only [this, if_true]
      exact ih
  | add_edge g a b w _ ih =>
    unfold UnDirected_Graph.add_edge
    split_ifs with h1
    · exact ih
    · simp only
      split_ifs
      · exact ih
      · exact canonical_store ih (canon_lt h1) _
  | remove_edge g a b _ ih =>
    unfold UnDirected_Graph.remove_edge
    simp only
    split_ifs
    · exact ih
    · exact canonical_emplace_nil ih _
    · exact canonical_drop ih _ _

/-! ## Both orientations of an undirected edge -/

theorem canon_comm {a b : Int} (h : a ≠ b) :
    UnDirected_Graph.canon b a = UnDirected_Graph.canon a b := by
  unfold UnDirected_Graph.canon
  by_cases h1 : a > b
  · have h2 : ¬ b > a := by omega
    simp [h1, h2]
  · have h2 : b > a := by omega
    simp [h1, h2]

theorem assign_assign {V : Type} (m : StdMap V) (k : Int) (v : V) :
    StdMap.assign (StdMap.assign m k v) k v = StdMap.assign m k v := by
  induction m with
  | nil => simp [StdMap.assign]
  | cons hd t ih =>
    obtain ⟨k', v'⟩ := hd
    simp only [StdMap.assign]
    split_ifs with h1 h2
    · simp [StdMap.assign]
    · simp [StdMap.assign]
    · simp only [StdMap.assign, h1, h2, if_false, ih]

/-- Storing the same edge twice is storing it once. -/
theorem store_store (t : EdgeTable) (a b : Int) (e : Graph_Edge) :
    Graph_Base.store (Graph_Base.store t a b e) a b e = Graph_Base.store t a b e := by
  unfold Graph_Base.store
  induction t with
  | nil => simp [StdMap.emplace, StdMap.modify, StdMap.assign]
  | cons hd t ih =>
    obtain ⟨k, row⟩ := hd
    simp only [StdMap.emplace]
    split_ifs with h1 h2
    · simp [StdMap.emplace, StdMap.modify, StdMap.assign]
    · subst h2
      simp [StdMap.emplace, StdMap.modify, assign_assign]
    · have h3 : ¬ k = a := fun h => h2 h.symm
      simp only [StdMap.modify, h3, if_false, StdMap.emplace, h1, h2, ih]

/-! ## Claims on `remove_edge` and `add_node` -/

/-- C11: in every graph reachable by the four mutators, directed or undirected,
`remove_edge(from, to)` returns false exactly when an endpoint is not a node or
the pair (swapped to `from < to` for the undirected graph) is not in
`getAllEdges()`, and then the object and `sizeEdge()` are unchanged; when it
returns true, `getAllEdges()` loses exactly that pair and `sizeEdge()` drops by
one. -/
theorem remove_edge_spec :
    (∀ g : Directed_Graph, Directed_Graph.Reachable g → ∀ a b : Int,
      ((Directed_Graph.remove_edge g a b).1 = false ↔
        (a ∉ g.getAllNodes ∨ b ∉ g.getAllNodes ∨ (a, b) ∉ g.getAllEdges)) ∧
      ((Directed_Graph.remove_edge g a b).1 = false →
        (Directed_Graph.remove_edge g a b).2 = g ∧
        (Directed_Graph.remove_edge g a b).2.sizeEdge = g.sizeEdge) ∧
      ((Directed_Graph.remove_edge g a b).1 = true →
        (Directed_Graph.remove_edge g a b).2.getAllEdges = g.getAllEdges.erase (a, b) ∧
        (Directed_Graph.remove_edge g a b).2.sizeEdge + 1 = g.sizeEdge)) ∧
    (∀ g : UnDirected_Graph, UnDirected_Graph.Reachable g → ∀ a b : Int,
      ((UnDirected_Graph.remove_edge g a b).1 = false ↔
        (a ∉ g.getAllNodes ∨ b ∉ g.getAllNodes ∨
          UnDirected_Graph.canon a b ∉ g.getAllEdges)) ∧
      ((UnDirected_Graph.remove_edge g a b).1 = false →
        (UnDirected_Graph.remove_edge g a b).2 = g ∧
        (UnDirected_Graph.remove_edge g a b).2.sizeEdge = g.sizeEdge) ∧
      ((UnDirected_Graph.remove_edge g a b).1 = true →
        (UnDirected_Graph.remove_edge g a b).2.getAllEdges
          = g.getAllEdges.erase (UnDirected_Graph.canon a b) ∧
        (UnDirected_Graph.remove_edge g a b).2.sizeEdge + 1 = g.sizeEdge)) := by
  constructor
  · intro g hg a b
    have hwf := directed_reachable_wf hg
    obtain ⟨hT, hF⟩ := directed_remove_edge_cases g hwf (directed_reachable_keys hg) a b
    by_cases hc : a ∈ g.getAllNodes ∧ b ∈ g.getAllNodes ∧ (a, b) ∈ g.getAllEdges
    · rw [hT hc]
      have hmem : (a, b) ∈ EdgeTable.pairs g.m_edges := by
        have := hc.2.2
        rwa [getAllEdges_eq, List.mem_toFinset] at this
      have hd := drop_spec hwf.2 a b hmem
      refine ⟨?_, ?_, ?_⟩
      · simp only [Bool.true_eq_false, false_iff]
        tauto
      · intro h; simp at h
      · intro _
        simp only [getAllEdges_eq, sizeEdge_eq]
        exact hd
    · rw [hF hc]
      refine ⟨?_, ?_, ?_⟩
      · simp only [true_iff]
        tauto
      · intro _; exact ⟨rfl, rfl⟩
      · intro h; simp at h
  · intro g hg a b
    have hwf := undirected_reachable_wf hg
    have hpair : UnDirected_Graph.canon a b
        = ((UnDirected_Graph.canon a b).1, (UnDirected_Graph.canon a b).2) := rfl
    obtain ⟨hT, hF⟩ := undirected_remove_edge_core g hwf (undirected_reachable_keys hg).1 a b
      _ _ hpair
    have hsym : (a ∈ g.getAllNodes ∧ b ∈ g.getAllNodes) ↔
        ((UnDirected_Graph.canon a b).1 ∈ g.getAllNodes ∧
          (UnDirected_Graph.canon a b).2 ∈ g.getAllNodes) := by
      rcases canon_cases a b with ⟨_, hc⟩ | ⟨_, hc⟩
      · rw [hc]
      · rw [hc]; exact and_comm
    by_cases hc : (UnDirected_Graph.canon a b).1 ∈ g.getAllNodes ∧
        (UnDirected_Graph.canon a b).2 ∈ g.getAllNodes ∧
        ((UnDirected_Graph.canon a b).1, (UnDirected_Graph.canon a b).2) ∈ g.getAllEdges
    · rw [hT hc]
      have hmem : ((UnDirected_Graph.canon a b).1, (UnDirected_Graph.canon a b).2)
          ∈ EdgeTable.pairs g.m_edges := by
        have := hc.2.2
        rwa [getAllEdges_eq, List.mem_toFinset] at this
      have hd := drop_spec hwf.1.2 _ _ hmem
      refine ⟨?_, ?_, ?_⟩
      · simp only [Bool.true_eq_false, false_iff]
        have h3 : UnDirected_Graph.canon a b ∈ g.getAllEdges := hc.2.2
        have h4 := hsym.2 ⟨hc.1, hc.2.1⟩
        tauto
      · intro h; simp at h
      · intro _
        simp only [getAllEdges_eq, sizeEdge_eq]
        exact hd
    · rw [hF hc]
      refine ⟨?_, ?_, ?_⟩
      · simp only [true_iff]
        by_contra hcon
        apply hc
        have h1 : a ∈ g.getAllNodes := by tauto
        have h2 : b ∈ g.getAllNodes := by tauto
        have h3 : UnDirected_Graph.canon a b ∈ g.getAllEdges := by tauto
        have h4 := hsym.1 ⟨h1, h2⟩
        exact ⟨h4.1, h4.2, h3⟩
      · intro _; exact ⟨rfl, rfl⟩
      · intro h; simp at h

/-- C11 at concrete calls: on the directed cycle `1 → 2 → 3 → 1`,
`remove_edge(2, 1)` (never added) fails and leaves `sizeEdge() = 3`, and
`remove_edge(1, 2)` succeeds and leaves `{(2, 3), (3, 1)}`; on the undirected
graph with the edge `(1, 2)`, `remove_edge(2, 1)` removes the pair `(1, 2)`. -/
theorem remove_edge_spec_witness :
    Directed_Graph.Reachable Example.d123c ∧
    ((Directed_Graph.remove_edge Example.d123c 2 1).1 = false ∧
      (Directed_Graph.remove_edge Example.d123c 2 1).2 = Example.d123c ∧
      (Directed_Graph.remove_edge Example.d123c 2 1).2.sizeEdge = 3) ∧
    ((Directed_Graph.remove_edge Example.d123c 1 2).1 = true ∧
      (Directed_Graph.remove_edge Example.d123c 1 2).2.getAllEdges = {(2, 3), (3, 1)} ∧
      (Directed_Graph.remove_edge Example.d123c 1 2).2.sizeEdge + 1 = Example.d123c.sizeEdge) ∧
    UnDirected_Graph.Reachable Example.u123e ∧
    ((UnDirected_Graph.remove_edge Example.u123e 2 1).1 = true ∧
      (UnDirected_Graph.remove_edge Example.u123e 2 1).2.getAllEdges
        = Example.u123e.getAllEdges.erase (1, 2) ∧
      (UnDirected_Graph.remove_edge Example.u123e 2 1).2.sizeEdge + 1 = Example.u123e.sizeEdge) :=
  ⟨d123c_reachable,
   ⟨by decide,
    ((remove_edge_spec.1 Example.d123c d123c_reachable 2 1).2.1 (by decide)).1,
    by decide⟩,
   ⟨by decide, by decide,
    ((remove_edge_spec.1 Example.d123c d123c_reachable 1 2).2.2 (by decide)).2⟩,
   u123e_reachable,
   ⟨by decide,
    ((remove_edge_spec.2 Example.u123e u123e_reachable 2 1).2.2 (by decide)).1,
    ((remove_edge_spec.2 Example.u123e u123e_reachable 2 1).2.2 (by decide)).2⟩⟩

/-- C12: for both kinds of graph and every id `x`, `add_node(x)` returns true
exactly when `x` is not in `getAllNodes()`; on success `getAllNodes()` gains `x`
and `getAllEdges()` is unchanged; on failure the object is unchanged; and an
`add_node(x)` right after a successful one returns false. -/
theorem add_node_spec :
    (∀ (g : Directed_Graph) (x : Int),
      ((Directed_Graph.add_node g x).1 = true ↔ x ∉ g.getAllNodes) ∧
      ((Directed_Graph.add_node g x).1 = true →
        (Directed_Graph.add_node g x).2.getAllNodes = insert x g.getAllNodes ∧
        (Directed_Graph.add_node g x).2.getAllEdges = g.getAllEdges ∧
        (Directed_Graph.add_node (Directed_Graph.add_node g x).2 x).1 = false) ∧
      ((Directed_Graph.add_node g x).1 = false → (Directed_Graph.add_node g x).2 = g)) ∧
    (∀ (g : UnDirected_Graph) (x : Int),
      ((UnDirected_Graph.add_node g x).1 = true ↔ x ∉ g.getAllNodes) ∧
      ((UnDirected_Graph.add_node g x).1 = true →
        (UnDirected_Graph.add_node g x).2.getAllNodes = insert x g.getAllNodes ∧
        (UnDirected_Graph.add_node g x).2.getAllEdges = g.getAllEdges ∧
        (UnDirected_Graph.add_node (UnDirected_Graph.add_node g x).2 x).1 = false) ∧
      ((UnDirected_Graph.add_node g x).1 = false → (UnDirected_Graph.add_node g x).2 = g)) := by
  constructor
  · intro g x
    by_cases hx : (StdMap.find g.m_nodes x).isSome = true
    · have hmem : x ∈ g.getAllNodes := (mem_getAllNodes g x).2 hx
      simp [Directed_Graph.add_node, hx, hmem]
    · have hmem : x ∉ g.getAllNodes := fun h => hx ((mem_getAllNodes g x).1 h)
      have hval : Directed_Graph.add_node g x
          = (true, { m_nodes := StdMap.assign g.m_nodes x ⟨x, f32_one⟩,
                     m_edges := StdMap.emplace g.m_edges x [] }) := by
        simp [Directed_Graph.add_node, hx]
      rw [hval]
      refine ⟨by simp [hmem], fun _ => ⟨getAllNodes_assign _ _ _ _,
        getAllEdges_emplace_nil _ _ _ _, ?_⟩, by simp⟩
      simp [Directed_Graph.add_node, StdMap.find_assign_self]
  · intro g x
    by_cases hx : (StdMap.find g.m_nodes x).isSome = true
    · have hmem : x ∈ g.getAllNodes := (mem_getAllNodes g.toGraph_Base x).2 hx
      simp [UnDirected_Graph.add_node, hx, hmem]
    · have hmem : x ∉ g.getAllNodes := fun h => hx ((mem_getAllNodes g.toGraph_Base x).1 h)
      have hval : UnDirected_Graph.add_node g x
          = (true, { m_nodes := StdMap.assign g.m_nodes x ⟨x, f32_one⟩,
                     m_edges := StdMap.emplace g.m_edges x [],
                     m_edges_inv := StdMap.emplace g.m_edges_inv x [] }) := by
        simp [UnDirected_Graph.add_node, hx]
      rw [hval]
      refine ⟨by simp [hmem], fun _ => ⟨getAllNodes_assign _ _ _ _,
        getAllEdges_emplace_nil _ _ _ _, ?_⟩, by simp⟩
      simp [UnDirected_Graph.add_node, StdMap.find_assign_self]

/-- C12 at concrete calls: on the directed graph `{1, 2}` with the edge
`(1, 2)`, `add_node(3)` succeeds, gives nodes `{1, 2, 3}` and keeps the edges,
and a second `add_node(3)` fails; `add_node(1)` fails and changes nothing. -/
theorem add_node_spec_witness :
    (Directed_Graph.add_node Example.d12e 3).1 = true ∧
    ((Directed_Graph.add_node Example.d12e 3).2.getAllNodes = insert 3 Example.d12e.getAllNodes ∧
      (Directed_Graph.add_node Example.d12e 3).2.getAllEdges = Example.d12e.getAllEdges ∧
      (Directed_Graph.add_node (Directed_Graph.add_node Example.d12e 3).2 3).1 = false) ∧
    (Directed_Graph.add_node Example.d12e 3).2.getAllNodes = {1, 2, 3} ∧
    (Directed_Graph.add_node Example.d12e 1).1 = false ∧
    (Directed_Graph.add_node Example.d12e 1).2 = Example.d12e ∧
    (UnDirected_Graph.add_node Example.u123e 1).2 = Example.u123e :=
  ⟨by decide,
   (add_node_spec.1 Example.d12e 3).2.1 (by decide),
   by decide, by decide,
   (add_node_spec.1 Example.d12e 1).2.2 (by decide),
   (add_node_spec.2 Example.u123e 1).2.2 (by decide)⟩

/-! ## Claims on the iterators and the neighbour queries -/

/-- C14: in every graph reachable by the four mutators, directed or undirected,
the loop over `nodes()` from `begin()` to `end()` ends (with any step budget above
`sizeNode()`) and yields exactly `sizeNode()` nodes, whose ids are pairwise
distinct and form the set `getAllNodes()`. -/
theorem node_iteration_spec :
    (∀ g : Directed_Graph, Directed_Graph.Reachable g →
      ∃ nodes : List Graph_Node,
        (∀ fuel : Nat, g.sizeNode < fuel → g.forNodes fuel = Outcome.done nodes) ∧
        nodes.length = g.sizeNode ∧
        (nodes.map (fun n => n.id)).Nodup ∧
        (nodes.map (fun n => n.id)).toFinset = g.getAllNodes) ∧
    (∀ g : UnDirected_Graph, UnDirected_Graph.Reachable g →
      ∃ nodes : List Graph_Node,
        (∀ fuel : Nat, g.sizeNode < fuel → g.forNodes fuel = Outcome.done nodes) ∧
        nodes.length = g.sizeNode ∧
        (nodes.map (fun n => n.id)).Nodup ∧
        (nodes.map (fun n => n.id)).toFinset = g.getAllNodes) :=
  ⟨fun g hg => ⟨g.m_nodes.map Prod.snd,
      forNodes_spec g (directed_reachable_wf hg).1 (directed_reachable_nodes hg)⟩,
   fun g hg => ⟨g.m_nodes.map Prod.snd,
      forNodes_spec g.toGraph_Base (undirected_reachable_wf hg).1.1
        (undirected_reachable_nodes hg)⟩⟩

/-- C14 at the directed cycle `1 → 2 → 3 → 1`: the loop yields the nodes `1`,
`2`, `3`, and `sizeNode() = 3`. -/
theorem node_iteration_spec_witness :
    Directed_Graph.Reachable Example.d123c ∧
    (∃ nodes : List Graph_Node,
      (∀ fuel : Nat, Example.d123c.sizeNode < fuel →
        Example.d123c.forNodes fuel = Outcome.done nodes) ∧
      nodes.length = Example.d123c.sizeNode ∧
      (nodes.map (fun n => n.id)).Nodup ∧
      (nodes.map (fun n => n.id)).toFinset = Example.d123c.getAllNodes) ∧
    Example.d123c.forNodes 4
      = Outcome.done [⟨1, f32_one⟩, ⟨2, f32_one⟩, ⟨3, f32_one⟩] ∧
    Example.d123c.sizeNode = 3 :=
  ⟨d123c_reachable, node_iteration_spec.1 Example.d123c d123c_reachable, by decide, by decide⟩

/-- C15: in every undirected graph reachable by `add_node`, `add_edge` and
`remove_edge` calls (and also with `remove_node` calls among them) and for every
id, `getNearEdges(id)` is the set of pairs `(id, n)` with `n` in
`getNearNode(id)`. -/
theorem undirected_getNearEdges_pairs_of_getNearNode (g : UnDirected_Graph)
    (hg : UnDirected_Graph.Reachable g) (id : Int) :
    (UnDirected_Graph.getNearEdges g id).1
      = (UnDirected_Graph.getNearNode g id).1.image (fun n => (id, n)) := by
  have hwf := undirected_reachable_wf hg
  have hinv := rowAt_rowOK hwf.2 id
  have h2 : (Graph_Base.rowAt g.m_edges_inv id).map (fun edge => (edge.2.from_, edge.2.to_))
      = (Graph_Base.rowAt g.m_edges_inv id).map (fun edge => (id, edge.2.to_)) :=
    List.map_congr_left (fun e he => by rw [(hinv.2 e he).1])
  have key : ∀ l : List (Int × Graph_Edge),
      (l.map (fun edge => (id, edge.2.to_))).toFinset
        = ((l.map (fun edge => edge.2.to_)).toFinset).image (fun n => (id, n)) := by
    intro l
    ext p
    simp only [List.mem_toFinset, List.mem_map, Finset.mem_image]
    constructor
    · rintro ⟨e, he, rfl⟩
      exact ⟨e.2.to_, ⟨e, he, rfl⟩, rfl⟩
    · rintro ⟨n, ⟨e, he, rfl⟩, rfl⟩
      exact ⟨e, he, rfl⟩
  rw [undirected_getNearEdges_eq, undirected_getNearNode_eq, Finset.image_union, h2, key, key]

/-- C15 on the graph `{1, 2, 3}` with the edge `(1, 2)`: `getNearEdges(2)` is
`{(2, 1)}`, reported from node `2` although the stored pair is `(1, 2)`. -/
theorem undirected_getNearEdges_pairs_of_getNearNode_witness :
    UnDirected_Graph.Reachable Example.u123e ∧
    (UnDirected_Graph.getNearEdges Example.u123e 2).1
      = (UnDirected_Graph.getNearNode Example.u123e 2).1.image (fun n => ((2 : Int), n)) ∧
    (UnDirected_Graph.getNearEdges Example.u123e 2).1 = {(2, 1)} ∧
    (UnDirected_Graph.getNearEdges Example.u123e 1).1 = {(1, 2)} :=
  ⟨u123e_reachable,
   undirected_getNearEdges_pairs_of_getNearNode Example.u123e u123e_reachable 2,
   by decide, by decide⟩

/-- C16: in every graph reachable by the four mutators, directed or undirected,
`getNearNode(id)` and `getNearEdges(id)` return the empty set for every `id`
that is not in `getAllNodes()`. -/
theorem near_queries_empty_for_absent_node :
    (∀ g : Directed_Graph, Directed_Graph.Reachable g → ∀ id : Int, id ∉ g.getAllNodes →
      (Graph_Base.getNearNode g id).1 = ∅ ∧ (Graph_Base.getNearEdges g id).1 = ∅) ∧
    (∀ g : UnDirected_Graph, UnDirected_Graph.Reachable g → ∀ id : Int, id ∉ g.getAllNodes →
      (UnDirected_Graph.getNearNode g id).1 = ∅ ∧
      (UnDirected_Graph.getNearEdges g id).1 = ∅) := by
  constructor
  · intro g hg id hid
    have hwf := directed_reachable_wf hg
    have hk : StdMap.keys g.m_nodes = StdMap.keys g.m_edges := directed_reachable_keys hg
    rw [mem_getAllNodes_iff_keys, hk] at hid
    rw [getNearNode_eq, getNearEdges_eq, rowAt_of_not_mem_keys hwf.2.1 hid]
    exact ⟨rfl, rfl⟩
  · intro g hg id hid
    have hwf := undirected_reachable_wf hg
    have hk := undirected_reachable_keys hg
    have hk1 : StdMap.keys g.m_nodes = StdMap.keys g.m_edges := hk.1
    have hk2 : StdMap.keys g.m_nodes = StdMap.keys g.m_edges_inv := hk.2
    rw [mem_getAllNodes_iff_keys] at hid
    rw [undirected_getNearNode_eq, undirected_getNearEdges_eq,
      rowAt_of_not_mem_keys hwf.1.2.1 (hk1 ▸ hid), rowAt_of_not_mem_keys hwf.2.1 (hk2 ▸ hid)]
    exact ⟨rfl, rfl⟩

/-- C16 at concrete graphs: node `2` was removed from the undirected graph
`{1, 2, 3}` with the edge `(1, 2)`, node `7` never existed in the directed one. -/
theorem near_queries_empty_for_absent_node_witness :
    ((Graph_Base.getNearNode Example.d123c 7).1 = ∅ ∧
      (Graph_Base.getNearEdges Example.d123c 7).1 = ∅) ∧
    ((UnDirected_Graph.getNearNode (UnDirected_Graph.remove_node Example.u123e 2).2 2).1 = ∅ ∧
      (UnDirected_Graph.getNearEdges (UnDirected_Graph.remove_node Example.u123e 2).2 2).1
        = ∅) :=
  ⟨near_queries_empty_for_absent_node.1 Example.d123c d123c_reachable 7 (by decide),
   near_queries_empty_for_absent_node.2 _
     (UnDirected_Graph.Reachable.remove_node _ 2 u123e_reachable) 2 (by decide)⟩

/-- C19: in every undirected graph reachable by the four mutators, the edge
stored in the forward table at `[a][b]` has `from = a`, `to = b` and `a < b`, and
every pair `(f, t)` of `getAllEdges()` has `f < t`. -/
theorem undirected_forward_edges_canonical (g : UnDirected_Graph)
    (hg : UnDirected_Graph.Reachable g) :
    (∀ (a b : Int) (row : StdMap Graph_Edge) (e : Graph_Edge),
      StdMap.find g.m_edges a = some row → StdMap.find row b = some e →
      e.from_ = a ∧ e.to_ = b ∧ a < b) ∧
    (∀ p ∈ g.getAllEdges, p.1 < p.2) := by
  have hwf := undirected_reachable_wf hg
  have hcan := undirected_reachable_canonical hg
  constructor
  · intro a b row e hrow he
    have h1 := StdMap.mem_of_find hrow
    have h2 := StdMap.mem_of_find he
    have h3 := (((wf_iff g.m_edges).1 hwf.1.2).2 (a, row) h1).2 (b, e) h2
    exact ⟨h3.1, h3.2, hcan (a, row) h1 (b, e) h2⟩
  · intro p hp
    rw [getAllEdges_eq, List.mem_toFinset] at hp
    obtain ⟨r, hr, e, he, rfl⟩ := mem_pairs.1 hp
    have h3 := (((wf_iff g.m_edges).1 hwf.1.2).2 r hr).2 e he
    have h4 := hcan r hr e he
    simp only
    omega

/-- C19 at the graph `{1, 2, 3}` after `add_edge(3, 1)`: the edge is stored at
`[1][3]` as `Graph_Edge(1, 3, _)` and `getAllEdges()` is `{(1, 3)}`. -/
theorem undirected_forward_edges_canonical_witness :
    UnDirected_Graph.Reachable (UnDirected_Graph.add_edge Example.u123 3 1 f32_one).2 ∧
    (∀ p ∈ (UnDirected_Graph.add_edge Example.u123 3 1 f32_one).2.getAllEdges, p.1 < p.2) ∧
    (UnDirected_Graph.add_edge Example.u123 3 1 f32_one).2.m_edges
      = [(1, [(3, ⟨1, 3, f32_one⟩)]), (2, []), (3, [])] ∧
    (UnDirected_Graph.add_edge Example.u123 3 1 f32_one).2.getAllEdges = {(1, 3)} :=
  ⟨UnDirected_Graph.Reachable.add_edge _ 3 1 f32_one u123_reachable,
   (undirected_forward_edges_canonical _
     (UnDirected_Graph.Reachable.add_edge _ 3 1 f32_one u123_reachable)).2,
   by decide, by decide⟩

/-- C20: on an undirected graph, `add_edge(a, b, w)` and `add_edge(b, a, w)`
return the same result and the same object, and the second orientation added
after the first changes nothing, so `sizeEdge()` counts the edge once. -/
theorem undirected_add_edge_orientation (g : UnDirected_Graph) (a b : Int) (w : Weight) :
    UnDirected_Graph.add_edge g a b w = UnDirected_Graph.add_edge g b a w ∧
    (UnDirected_Graph.add_edge (UnDirected_Graph.add_edge g a b w).2 b a w).2
      = (UnDirected_Graph.add_edge g a b w).2 ∧
    (UnDirected_Graph.add_edge (UnDirected_Graph.add_edge g a b w).2 b a w).2.sizeEdge
      = (UnDirected_Graph.add_edge g a b w).2.sizeEdge := by
  have hcomm : ∀ g' : UnDirected_Graph,
      UnDirected_Graph.add_edge g' a b w = UnDirected_Graph.add_edge g' b a w := by
    intro g'
    by_cases hab : a = b
    · subst hab; rfl
    · unfold UnDirected_Graph.add_edge
      have hba : ¬ b = a := fun h => hab h.symm
      simp only [hab, hba, if_false, canon_comm hab]
  have hidem : (UnDirected_Graph.add_edge (UnDirected_Graph.add_edge g a b w).2 a b w).2
      = (UnDirected_Graph.add_edge g a b w).2 := by
    by_cases hab : a = b
    · simp [UnDirected_Graph.add_edge, hab]
    · by_cases h1 : ((StdMap.find g.m_nodes (UnDirected_Graph.canon a b).1).isNone ||
          (StdMap.find g.m_nodes (UnDirected_Graph.canon a b).2).isNone) = true
      · simp [UnDirected_Graph.add_edge, hab, h1]
      · simp [UnDirected_Graph.add_edge, hab, h1, store_store]
  refine ⟨hcomm g, ?_, ?_⟩
  · rw [← hcomm]; exact hidem
  · rw [← hcomm, hidem]

set_option maxRecDepth 8000

/-- C20 on the demo: nodes `1..7` and the 23 pairs of `main`, most of them
given in both orientations, make 12 edges. -/
theorem undirected_add_edge_orientation_witness :
    (UnDirected_Graph.add_edge Example.u123 1 2 f32_one
        = UnDirected_Graph.add_edge Example.u123 2 1 f32_one ∧
      (UnDirected_Graph.add_edge (UnDirected_Graph.add_edge Example.u123 1 2 f32_one).2
          2 1 f32_one).2 = (UnDirected_Graph.add_edge Example.u123 1 2 f32_one).2 ∧
      (UnDirected_Graph.add_edge (UnDirected_Graph.add_edge Example.u123 1 2 f32_one).2
          2 1 f32_one).2.sizeEdge
        = (UnDirected_Graph.add_edge Example.u123 1 2 f32_one).2.sizeEdge) ∧
    Example.demo.sizeNode = 7 ∧ Example.demo.sizeEdge = 12 :=
  ⟨undirected_add_edge_orientation Example.u123 1 2 f32_one, by decide, by decide⟩

/-! ## Further places where the code departs from the claims -/

/-- C13: on the reachable directed graph with nodes `{1, 2}` and the edge
`(1, 2)`, the forward row of node `1` holds the single `to` value `2`
(`getNearNode(1) = {2}`), but the first dereference of `nearNodes(1).begin()`
gives the node with id `1`, and the whole loop yields node `1` only: `operator*`
looks up the `from` member of the edge under the cursor. -/
theorem nearNodes_iteration_yields_from_node :
    Directed_Graph.Reachable Example.d12e ∧
    (1 : Int) ∈ Example.d12e.getAllNodes ∧
    (Graph_Base.getNearNode Example.d12e 1).1 = {2} ∧
    (NearNodeIterator.beginIterator Example.d12e 1).1
      = { m_iterNearEdges := NearCursor.entry 1 2 } ∧
    (NearNodeIterator.deref Example.d12e (NearNodeIterator.beginIterator Example.d12e 1).1).map
      (fun r => r.1.id) = some 1 ∧
    (∀ fuel : Nat, Example.d12e.forNearNodes 1 (fuel + 2) = Outcome.done [⟨1, f32_one⟩]) ∧
    Example.d123c.forNearNodes 3 2 = Outcome.done [⟨3, f32_one⟩] :=
  ⟨d12e_reachable, by decide, by decide, by decide, by decide, fun _ => rfl, by decide⟩

/-- C17: after `remove_node(2)` on the reachable undirected graph `{1, 2, 3}`
with the edge `(1, 2)`, the forward table still holds an edge at `[1][2]` while
the reverse table holds nothing at `[2][1]`; after `remove_node(1)` instead, the
reverse table holds an entry at `[2][1]` and the forward table nothing at
`[1][2]`. -/
theorem undirected_tables_not_dual_after_remove_node :
    UnDirected_Graph.Reachable (UnDirected_Graph.remove_node Example.u123e 2).2 ∧
    ((StdMap.find (UnDirected_Graph.remove_node Example.u123e 2).2.m_edges 1).bind
      (fun row => StdMap.find row 2)) = some ⟨1, 2, f32_two⟩ ∧
    ((StdMap.find (UnDirected_Graph.remove_node Example.u123e 2).2.m_edges_inv 2).bind
      (fun row => StdMap.find row 1)) = none ∧
    UnDirected_Graph.Reachable (UnDirected_Graph.remove_node Example.u123e 1).2 ∧
    ((StdMap.find (UnDirected_Graph.remove_node Example.u123e 1).2.m_edges 1).bind
      (fun row => StdMap.find row 2)) = none ∧
    ((StdMap.find (UnDirected_Graph.remove_node Example.u123e 1).2.m_edges_inv 2).bind
      (fun row => StdMap.find row 1)) = some ⟨2, 1, f32_two⟩ :=
  ⟨UnDirected_Graph.Reachable.remove_node _ 2 u123e_reachable, by decide, by decide,
   UnDirected_Graph.Reachable.remove_node _ 1 u123e_reachable, by decide, by decide⟩

/-- C18: on the directed graph with nodes `{1, 2}` the node table and the
forward table both have the keys `1, 2`; after `getNearNode(5)`,
`getNearEdges(5)` or `nearNodes(5).begin()` the forward table has the keys
`1, 2, 5` while the node table still has `1, 2`. The same happens to the
undirected graph `{1, 2, 3}` on `getNearNode(5)`. -/
theorem neighbour_query_creates_row_for_absent_id :
    StdMap.keys Example.d12.m_nodes = [1, 2] ∧ StdMap.keys Example.d12.m_edges = [1, 2] ∧
    (Graph_Base.getNearNode Example.d12 5).1 = ∅ ∧
    StdMap.keys (Graph_Base.getNearNode Example.d12 5).2.m_nodes = [1, 2] ∧
    StdMap.keys (Graph_Base.getNearNode Example.d12 5).2.m_edges = [1, 2, 5] ∧
    StdMap.keys (Graph_Base.getNearEdges Example.d12 5).2.m_nodes = [1, 2] ∧
    StdMap.keys (Graph_Base.getNearEdges Example.d12 5).2.m_edges = [1, 2, 5] ∧
    StdMap.keys (NearNodeIterator.beginIterator Example.d12 5).2.m_nodes = [1, 2] ∧
    StdMap.keys (NearNodeIterator.beginIterator Example.d12 5).2.m_edges = [1, 2, 5] ∧
    StdMap.keys (UnDirected_Graph.getNearNode Example.u123 5).2.m_nodes = [1, 2, 3] ∧
    StdMap.keys (UnDirected_Graph.getNearNode Example.u123 5).2.m_edges = [1, 2, 3, 5] := by
  decide

/-! ## Facts about `EdgeIterator::operator++` -/

theorem positions_cons (r : Int × StdMap Graph_Edge) (t : EdgeTable) :
    EdgeTable.positions (r :: t)
      = r.2.map (fun edge => (r.1, edge.1)) ++ EdgeTable.positions t := by
  simp [EdgeTable.positions]

theorem positions_append (t u : EdgeTable) :
    EdgeTable.positions (t ++ u) = EdgeTable.positions t ++ EdgeTable.positions u := by
  simp [EdgeTable.positions, List.flatMap_append]

theorem mem_positions {t : EdgeTable} {x : Int × Int} :
    x ∈ EdgeTable.positions t ↔ ∃ r ∈ t, ∃ e ∈ r.2, (r.1, e.1) = x := by
  simp [EdgeTable.positions, List.mem_flatMap, List.mem_map]

/-- The positions of a well-formed table ascend in row-major order. -/
theorem positions_sorted {t : EdgeTable} (ht : EdgeTable.WF t) :
    (EdgeTable.positions t).Pairwise RowMajorLt := by
  induction t with
  | nil => simp [EdgeTable.positions]
  | cons hd t ih =>
    obtain ⟨k, row⟩ := hd
    obtain ⟨hlt, hrow, htl⟩ := wf_cons ht
    rw [positions_cons, List.pairwise_append]
    refine ⟨?_, ih htl, ?_⟩
    · rw [List.pairwise_map]
      have h1 : row.Pairwise (fun x y => x.1 < y.1) := List.pairwise_map.1 hrow.1
      exact h1.imp (fun h => Or.inr ⟨rfl, h⟩)
    · intro x hx y hy
      obtain ⟨e, _, rfl⟩ := List.mem_map.1 hx
      obtain ⟨r', hr', e', _, rfl⟩ := mem_positions.1 hy
      exact Or.inl (hlt r' hr')

/-- The `while` loop entered at the end of row `r`: it stops on the first
entry of the first non-empty row behind, or at the table's end. -/
theorem skip_from_row_end (rows : EdgeTable) :
    ∀ r : Int,
      (EdgeTable.positions rows = [] →
        (EdgeIterator.skip
          { m_iterEdges := Cursor.entry r, m_iterNearEdges := NearCursor.past_end r }
          rows).m_iterEdges = Cursor.past_end) ∧
      (∀ (r' k' : Int) (rest : List (Int × Int)),
        EdgeTable.positions rows = (r', k') :: rest →
        EdgeIterator.skip
          { m_iterEdges := Cursor.entry r, m_iterNearEdges := NearCursor.past_end r } rows
          = { m_iterEdges := Cursor.entry r', m_iterNearEdges := NearCursor.entry r' k' }) := by
  induction rows with
  | nil =>
    intro r
    refine ⟨fun _ => by simp [EdgeIterator.skip], ?_⟩
    intro r' k' rest h
    simp [EdgeTable.positions] at h
  | cons hd rows ih =>
    intro r
    obtain ⟨r1, row1⟩ := hd
    cases row1 with
    | nil =>
      have hpos : EdgeTable.positions ((r1, []) :: rows) = EdgeTable.positions rows := by
        rw [positions_cons]; rfl
      rw [hpos]
      simp only [EdgeIterator.skip, if_true, NearCursor.first]
      exact ih r1
    | cons e row1 =>
      obtain ⟨k1, e1⟩ := e
      have hpos : EdgeTable.positions ((r1, (k1, e1) :: row1) :: rows)
          = (r1, k1) :: (row1.map (fun edge => (r1, edge.1)) ++ EdgeTable.positions rows) := by
        rw [positions_cons]; rfl
      rw [hpos]
      refine ⟨fun h => by simp at h, ?_⟩
      intro r' k' rest h
      simp only [List.cons.injEq, Prod.mk.injEq] at h
      obtain ⟨⟨h1, h2⟩, _⟩ := h
      subst h1 h2
      simp only [EdgeIterator.skip, if_true, NearCursor.first]
      cases rows <;> simp [EdgeIterator.skip]

/-- A cursor whose inner part is on an entry leaves the `while` loop at once. -/
theorem skip_on_entry (r r0 k : Int) (rows : EdgeTable) :
    EdgeIterator.skip
        { m_iterEdges := Cursor.entry r, m_iterNearEdges := NearCursor.entry r0 k } rows
      = { m_iterEdges := Cursor.entry r, m_iterNearEdges := NearCursor.entry r0 k } := by
  cases rows <;> simp [EdgeIterator.skip]

/-- The value of `operator++` on a cursor that is on the entry `(r, k)`. -/
theorem next_on_entry (g : Graph_Base) (hg : g.WF) (P S : EdgeTable) (r k : Int)
    (p s : StdMap Graph_Edge) (e : Graph_Edge)
    (h : g.m_edges = P ++ (r, p ++ (k, e) :: s) :: S) :
    EdgeIterator.deref g
        { m_iterEdges := Cursor.entry r, m_iterNearEdges := NearCursor.entry r k } = some e ∧
    EdgeIterator.next g
        { m_iterEdges := Cursor.entry r, m_iterNearEdges := NearCursor.entry r k }
      = some (EdgeIterator.skip
          { m_iterEdges := Cursor.entry r, m_iterNearEdges := NearCursor.first r s } S) := by
  have hord : StdMap.Ordered (P ++ (r, p ++ (k, e) :: s) :: S) := h ▸ hg.2.1
  have hrow : StdMap.Ordered (p ++ (k, e) :: s) := by
    have := ((wf_iff g.m_edges).1 hg.2).2 (r, p ++ (k, e) :: s) (by rw [h]; simp)
    exact this.1
  obtain ⟨h1, h2⟩ := find_after_append P S r _ hord
  obtain ⟨h3, h4⟩ := find_after_append p s k e hrow
  constructor
  · simp [EdgeIterator.deref, h, h1, h3]
  · simp [EdgeIterator.next, h, h1, h2, h4]

/-! ## Claims on `EdgeIterator` -/

/-- C21: in every well-formed graph, for a cursor on the stored edge `(r, k)`
(outer cursor on row `r`, inner cursor on its entry `k`), `operator++` is defined
and moves the cursor to the position that follows `(r, k)` in the row-major list
of stored positions (ascending row id, then ascending neighbour id), whatever
number of empty rows lies between; when no position follows, the new cursor does
not compare unequal to `endIterator`. -/
theorem edgeIterator_increment_spec (g : Graph_Base) (hg : g.WF) (P S : EdgeTable)
    (r k : Int) (p s : StdMap Graph_Edge) (e : Graph_Edge)
    (h : g.m_edges = P ++ (r, p ++ (k, e) :: s) :: S) :
    (EdgeTable.positions g.m_edges).Pairwise RowMajorLt ∧
    EdgeTable.positions g.m_edges
      = (EdgeTable.positions P ++ p.map (fun edge => (r, edge.1)))
        ++ (r, k) :: (s.map (fun edge => (r, edge.1)) ++ EdgeTable.positions S) ∧
    EdgeIterator.deref g
      { m_iterEdges := Cursor.entry r, m_iterNearEdges := NearCursor.entry r k } = some e ∧
    ∃ it' : EdgeIterator,
      EdgeIterator.next g
        { m_iterEdges := Cursor.entry r, m_iterNearEdges := NearCursor.entry r k } = some it' ∧
      (∀ (r' k' : Int) (rest : List (Int × Int)),
        s.map (fun edge => (r, edge.1)) ++ EdgeTable.positions S = (r', k') :: rest →
        it' = { m_iterEdges := Cursor.entry r', m_iterNearEdges := NearCursor.entry r' k' }) ∧
      (s.map (fun edge => (r, edge.1)) ++ EdgeTable.positions S = [] →
        EdgeIterator.ne it' (EdgeIterator.endIterator g) = false) := by
  obtain ⟨hderef, hnext⟩ := next_on_entry g hg P S r k p s e h
  refine ⟨positions_sorted hg.2, ?_, hderef, _, hnext, ?_, ?_⟩
  · rw [h, positions_append, positions_cons]
    simp
  · intro r' k' rest hpos
    cases s with
    | nil =>
      simp only [List.map_nil, List.nil_append] at hpos
      exact (skip_from_row_end S r).2 r' k' rest hpos
    | cons x s =>
      obtain ⟨k1, e1⟩ := x
      simp only [List.map_cons, List.cons_append, List.cons.injEq, Prod.mk.injEq] at hpos
      obtain ⟨⟨h1, h2⟩, _⟩ := hpos
      subst h1 h2
      exact skip_on_entry _ _ _ S
  · intro hpos
    cases s with
    | nil =>
      simp only [List.map_nil, List.nil_append] at hpos
      have hout := (skip_from_row_end S r).1 hpos
      have hlen : g.m_edges.length ≠ 0 := by rw [h]; simp
      simp [EdgeIterator.ne, EdgeIterator.endIterator, hlen, hout, NearCursor.first]
    | cons x s => simp at hpos

/-- C21 on the directed graph with nodes `{1, 2, 3, 4}` and edges `(1, 2)`,
`(1, 3)`, `(4, 1)`: from `(1, 2)` the cursor moves to `(1, 3)`, from `(1, 3)` over
the empty rows `2` and `3` to `(4, 1)`, and from `(4, 1)` to a cursor equal to
`endIterator`. -/
theorem edgeIterator_increment_spec_witness :
    Example.d4.WF ∧
    EdgeTable.positions Example.d4.m_edges = [(1, 2), (1, 3), (4, 1)] ∧
    (∃ it' : EdgeIterator,
      EdgeIterator.next Example.d4
        { m_iterEdges := Cursor.entry 1, m_iterNearEdges := NearCursor.entry 1 3 } = some it' ∧
      (∀ (r' k' : Int) (rest : List (Int × Int)),
        ([] : StdMap Graph_Edge).map (fun edge => ((1 : Int), edge.1))
            ++ EdgeTable.positions [(2, []), (3, []), (4, [(1, ⟨4, 1, f32_one⟩)])]
          = (r', k') :: rest →
        it' = { m_iterEdges := Cursor.entry r', m_iterNearEdges := NearCursor.entry r' k' }) ∧
      (([] : StdMap Graph_Edge).map (fun edge => ((1 : Int), edge.1))
            ++ EdgeTable.positions [(2, []), (3, []), (4, [(1, ⟨4, 1, f32_one⟩)])] = [] →
        EdgeIterator.ne it' (EdgeIterator.endIterator Example.d4) = false)) ∧
    EdgeIterator.next Example.d4
        { m_iterEdges := Cursor.entry 1, m_iterNearEdges := NearCursor.entry 1 2 }
      = some { m_iterEdges := Cursor.entry 1, m_iterNearEdges := NearCursor.entry 1 3 } ∧
    EdgeIterator.next Example.d4
        { m_iterEdges := Cursor.entry 1, m_iterNearEdges := NearCursor.entry 1 3 }
      = some { m_iterEdges := Cursor.entry 4, m_iterNearEdges := NearCursor.entry 4 1 } ∧
    (EdgeIterator.next Example.d4
        { m_iterEdges := Cursor.entry 4, m_iterNearEdges := NearCursor.entry 4 1 }).map
      (fun it => EdgeIterator.ne it (EdgeIterator.endIterator Example.d4)) = some false :=
  ⟨by decide, by decide,
   (edgeIterator_increment_spec Example.d4 (by decide) []
     [(2, []), (3, []), (4, [(1, ⟨4, 1, f32_one⟩)])] 1 3 [(2, ⟨1, 2, f32_one⟩)] []
     ⟨1, 3, f32_one⟩ (by decide)).2.2.2,
   by decide, by decide, by decide⟩

/-- C22: the reachable directed graph with nodes `{1, 2}` and the edge `(2, 1)`
has a node and `edges().begin()` compares unequal to `edges().end()`, yet the
begin cursor is at the end of the empty row of node `1`: dereferencing it is not
defined, and it is not on `(2, 1)`, the first stored edge in row-major order. -/
theorem edges_begin_not_on_stored_edge :
    Directed_Graph.Reachable Example.d21 ∧
    Example.d21.sizeNode = 2 ∧
    EdgeTable.positions Example.d21.m_edges = [(2, 1)] ∧
    EdgeIterator.ne (EdgeIterator.beginIterator Example.d21)
      (EdgeIterator.endIterator Example.d21) = true ∧
    EdgeIterator.beginIterator Example.d21
      = { m_iterEdges := Cursor.entry 1, m_iterNearEdges := NearCursor.past_end 1 } ∧
    EdgeIterator.deref Example.d21 (EdgeIterator.beginIterator Example.d21) = none ∧
    EdgeIterator.deref Example.d21
      { m_iterEdges := Cursor.entry 2, m_iterNearEdges := NearCursor.entry 2 1 }
      = some ⟨2, 1, f32_one⟩ :=
  ⟨Directed_Graph.Reachable.add_edge _ 2 1 f32_one
      (Directed_Graph.Reachable.add_node _ 2
        (Directed_Graph.Reachable.add_node _ 1 Directed_Graph.Reachable.empty)),
   by decide, by decide, by decide, by decide, by decide, by decide⟩

end Graph
